import Mathlib

/-!
The Pintos thread scheduler (`src/threads/thread.c`).

A shallow embedding of the scheduler of `thread.c`.

* A `struct thread *` is a natural number (the page address); `0` is `NULL`.
  The thread structures live in `State.mem`.
* The intrusive lists (`ready_list`, `sleep_list`, `all_list`, `donators`) are
  lists of thread pointers, front first.
* A C `int` is an `Int`; a value stored into an `int` is reduced by `wrap32`,
  `unsigned thread_ticks` is reduced modulo `2^32`.
* A failed `ASSERT` is `none`.
* `schedule ()` is read sequentially: after `switch_threads` the processor runs
  the next thread, `running_thread ()` is that thread, and in `thread_yield` the
  `intr_set_level (old_level)` that follows `schedule ()` is applied to the state
  reached. `thread_goto_sleep` is cut at the switch: what follows `thread_block ()`
  there touches the wake cache and is run only once the sleeper has been woken, so
  it is a definition of its own, `thread_goto_sleep_resume`.
-/

namespace Pintos

/-! ## Data model -/

/-- States in a thread's life cycle (`enum thread_status`). -/
inductive thread_status where
  | THREAD_RUNNING
  | THREAD_READY
  | THREAD_BLOCKED
  | THREAD_DYING
  deriving DecidableEq, Repr

/-- Interrupts on or off (`enum intr_level`). -/
inductive intr_level where
  | INTR_OFF
  | INTR_ON
  deriving DecidableEq, Repr

open thread_status intr_level

/-- A `struct thread *`: the address of the thread's page, `0` for `NULL`. -/
abbrev Ptr := Nat

/-- Modelled from the spec: the members of `struct thread` (threads/thread.h is not
among the sources) that `thread.c` reads or writes for scheduling. -/
structure thread where
  tid : Int
  status : thread_status
  priority : Int
  origin_priority : Int
  priority_after : Int
  donated_level : Int
  is_donating : Bool
  receiver : Ptr
  donators : List Ptr
  nice : Int
  recent_cpu : Int
  waketime : Int
  magic : Nat

/-- Value of the `magic` member of a live thread. -/
def THREAD_MAGIC : Nat := 0xcd6abf4b

/-- Number of timer ticks to give each thread (`#define time_slice 4`). -/
def TIME_SLICE : Nat := 4

/-- Modelled from the spec: `PRI_MIN` of threads/thread.h (not among the sources), the
lowest priority, with the value of the Pintos header. -/
def PRI_MIN : Int := 0

/-- Modelled from the spec: `PRI_DEFAULT` of threads/thread.h (not among the sources),
the default priority, with the value of the Pintos header. -/
def PRI_DEFAULT : Int := 31

/-- Modelled from the spec: `PRI_MAX` of threads/thread.h (not among the sources), the
highest priority, with the value of the Pintos header. -/
def PRI_MAX : Int := 63

/-- The file-level variables of `thread.c`, the thread pages, and the interrupt
state the scheduler consults. -/
structure State where
  mem : Ptr → thread
  ready_list : List Ptr
  sleep_list : List Ptr
  all_list : List Ptr
  next_tick_to_awake : Int
  load_avg : Int
  idle_thread : Ptr
  initial_thread : Ptr
  running : Ptr
  idle_ticks : Int
  kernel_ticks : Int
  thread_ticks : Nat
  thread_mlfqs : Bool
  next_tid : Int
  intr : intr_level
  intr_context : Bool
  yield_on_return : Bool

/-- Store `v` at `*t`. -/
def State.store (s : State) (t : Ptr) (v : thread) : State :=
  { s with mem := fun p => if p = t then v else s.mem p }

/-- Reduction of an integer to a 32-bit two's complement `int`. -/
def wrap32 (x : Int) : Int := (x + 2147483648) % 4294967296 - 2147483648

/-- The values of a 32-bit `int`. -/
def isInt32 (x : Int) : Prop := -2147483648 ≤ x ∧ x ≤ 2147483647

instance (x : Int) : Decidable (isInt32 x) := by unfold isInt32; infer_instance

/-! ## Kernel list library (lib/kernel/list.c) -/

/-- Modelled from the spec: `list_insert_ordered` of lib/kernel/list.c (not among the
sources) inserts `elem` before the first element `e` with `less (elem, e)`, at the
tail if there is none. -/
def list_insert_ordered {α : Type} (less : α → α → Bool) (elem : α) : List α → List α
  | [] => [elem]
  | e :: rest =>
    if less elem e then elem :: e :: rest else e :: list_insert_ordered less elem rest

/-! ## thread.c -/

/-- `running_thread ()`: the thread whose page holds the stack pointer. -/
def running_thread (s : State) : Ptr := s.running

/-- `is_thread (t)`: `t != NULL && t->magic == THREAD_MAGIC`. -/
def is_thread (s : State) (t : Ptr) : Bool :=
  t != 0 && (s.mem t).magic == THREAD_MAGIC

/-- `thread_current ()`: the running thread, after the two sanity assertions. -/
def thread_current (s : State) : Option Ptr :=
  let t := running_thread s
  if !is_thread s t then none
  else if (s.mem t).status != THREAD_RUNNING then none
  else some t

/-- `compare_thread_priority (e1, e2)`: `t1->priority > t2->priority`. -/
def compare_thread_priority (mem : Ptr → thread) (e1 e2 : Ptr) : Bool :=
  decide ((mem e1).priority > (mem e2).priority)

/-- `thread_unblock (t)`. -/
def thread_unblock (t : Ptr) (s : State) : Option State :=
  if !is_thread s t then none
  else
    let old_level := s.intr
    let s := { s with intr := INTR_OFF }
    if (s.mem t).status != THREAD_BLOCKED then none
    else
      let s := { s with
        ready_list := list_insert_ordered (compare_thread_priority s.mem) t s.ready_list }
      let s := s.store t { s.mem t with status := THREAD_READY }
      some { s with intr := old_level }

/-- `next_thread_to_run ()`: the thread returned and the state left. -/
def next_thread_to_run (s : State) : Ptr × State :=
  match s.ready_list with
  | [] => (s.idle_thread, s)
  | t :: rest => (t, { s with ready_list := rest })

/-- `thread_schedule_tail (prev)`. The page allocator is an external collaborator:
`palloc_free_page (prev)` leaves the scheduler's variables as they are. -/
def thread_schedule_tail (prev : Ptr) (s : State) : Option State :=
  let cur := running_thread s
  if s.intr != INTR_OFF then none
  else
    let s := s.store cur { s.mem cur with status := THREAD_RUNNING }
    let s := { s with thread_ticks := 0 }
    if prev != 0 && (s.mem prev).status == THREAD_DYING && prev != s.initial_thread then
      if prev == cur then none else some s
    else some s

/-- `schedule ()`. `switch_threads (cur, next)` hands the processor to `next` and
returns, in `next`, the thread switched from. -/
def schedule (s : State) : Option State :=
  let cur := running_thread s
  let (next, s) := next_thread_to_run s
  if s.intr != INTR_OFF then none
  else if (s.mem cur).status == THREAD_RUNNING then none
  else if !is_thread s next then none
  else if cur != next then thread_schedule_tail cur { s with running := next }
  else thread_schedule_tail 0 s

/-- `thread_block ()`. -/
def thread_block (s : State) : Option State :=
  if s.intr_context then none
  else if s.intr != INTR_OFF then none
  else
    match thread_current s with
    | none => none
    | some cur => schedule (s.store cur { s.mem cur with status := THREAD_BLOCKED })

/-- `thread_yield ()`. -/
def thread_yield (s : State) : Option State :=
  match thread_current s with
  | none => none
  | some cur =>
    if s.intr_context then none
    else
      let old_level := s.intr
      let s := { s with intr := INTR_OFF }
      let s :=
        if cur != s.idle_thread then
          { s with
            ready_list := list_insert_ordered (compare_thread_priority s.mem) cur s.ready_list }
        else s
      let s := s.store cur { s.mem cur with status := THREAD_READY }
      match schedule s with
      | none => none
      | some s => some { s with intr := old_level }

/-- Modelled from the spec: `intr_yield_on_return ()` of threads/interrupt.c (not among
the sources), the request to yield on return from the interrupt. -/
def intr_yield_on_return (s : State) : State := { s with yield_on_return := true }

/-- `thread_tick ()`. `USERPROG` is not defined, so a tick is an idle or a kernel tick. -/
def thread_tick (s : State) : Option State :=
  match thread_current s with
  | none => none
  | some t =>
    let s :=
      if t = s.idle_thread then { s with idle_ticks := s.idle_ticks + 1 }
      else { s with kernel_ticks := s.kernel_ticks + 1 }
    let s := { s with thread_ticks := (s.thread_ticks + 1) % 4294967296 }
    if s.thread_ticks ≥ TIME_SLICE then some (intr_yield_on_return s) else some s

/-- `priority_yield ()`. -/
def priority_yield (s : State) : Option State :=
  match thread_current s with
  | none => none
  | some ct =>
    match s.ready_list with
    | [] => some s
    | front :: _ =>
      if (s.mem ct).priority < (s.mem front).priority then thread_yield s else some s

/-- `thread_set_priority (new_priority)`. -/
def thread_set_priority (new_priority : Int) (s : State) : Option State :=
  match thread_current s with
  | none => none
  | some ct =>
    if (s.mem ct).donated_level != 0 || (s.mem ct).is_donating then
      some (s.store ct { s.mem ct with priority_after := new_priority })
    else
      match thread_current s with
      | none => none
      | some cur =>
        let s := s.store cur { s.mem cur with priority := new_priority }
        match s.ready_list with
        | [] => some s
        | _ :: _ => priority_yield s

/-- `thread_get_priority ()`. -/
def thread_get_priority (s : State) : Option Int :=
  (thread_current s).map (fun t => (s.mem t).priority)

/-! ### Fixed point (threads/float.h) -/

/-- Modelled from the spec: the scale `2^14` of the fixed-point numbers of
threads/float.h (not among the sources). -/
def FRACTION : Int := 16384

/-- Modelled from the spec: an integer as a fixed-point number. -/
def INT_TO_FP (n : Int) : Int := n * FRACTION

/-- Modelled from the spec: a fixed-point number plus an integer. -/
def ADD_INT (x n : Int) : Int := x + n * FRACTION

/-- Modelled from the spec: a fixed-point number times an integer. -/
def MULT_INT (x n : Int) : Int := x * n

/-- Modelled from the spec: a fixed-point number divided by an integer (C division,
towards zero). -/
def DIV_INT (x n : Int) : Int := Int.tdiv x n

/-- Modelled from the spec: the product of two fixed-point numbers, the raw product
divided by the scale. -/
def MULT_FP (x y : Int) : Int := Int.tdiv (x * y) FRACTION

/-- Modelled from the spec: the quotient of two fixed-point numbers, the numerator
times the scale divided by the denominator. -/
def DIV_FP (x y : Int) : Int := Int.tdiv (x * FRACTION) y

/-- Modelled from the spec: a fixed-point number to the nearest integer. -/
def FP_TO_INT_ROUND (x : Int) : Int :=
  if x ≥ 0 then Int.tdiv (x + Int.tdiv FRACTION 2) FRACTION
  else Int.tdiv (x - Int.tdiv FRACTION 2) FRACTION

/-! ### MLFQS -/

/-- `mlfqs_priority_change (t)`. -/
def mlfqs_priority_change (t : Ptr) (s : State) : State :=
  if t = s.idle_thread then s
  else
    let term1 := wrap32 (DIV_INT (s.mem t).recent_cpu 4)
    let term2 := wrap32 (2 * (s.mem t).nice)
    let s := s.store t
      { s.mem t with priority := wrap32 (PRI_MAX - FP_TO_INT_ROUND term1 - term2) }
    let s :=
      if (s.mem t).priority ≤ PRI_MIN then s.store t { s.mem t with priority := PRI_MIN }
      else s
    if (s.mem t).priority ≥ PRI_MAX then s.store t { s.mem t with priority := PRI_MAX }
    else s

/-- `thread_set_nice (nice)`. -/
def thread_set_nice (nice : Int) (s : State) : Option State :=
  if s.thread_mlfqs then some s
  else
    match thread_current s with
    | none => none
    | some cur =>
      let s := s.store cur { s.mem cur with nice := nice }
      some (mlfqs_priority_change cur s)

/-- `thread_get_nice ()`. -/
def thread_get_nice (s : State) : Option Int :=
  (thread_current s).map (fun t => (s.mem t).nice)

/-- `mlfqs_load_avg_change ()`. -/
def mlfqs_load_avg_change (s : State) : Option State :=
  let term2 := wrap32 (s.ready_list.length : Int)
  match thread_current s with
  | none => none
  | some cur =>
    let term2 := if cur != s.idle_thread then wrap32 (term2 + 1) else term2
    let s := { s with
      load_avg := wrap32 (MULT_FP (DIV_INT (INT_TO_FP 59) 60) s.load_avg
        + MULT_INT (DIV_INT (INT_TO_FP 1) 60) term2) }
    if s.load_avg ≥ 0 then some s else none

/-- `mlfqs_recent_cpu_change (t)`. The divisor `ADD_INT (term1, 1)` is an `int`; a
division by zero is a fault. -/
def mlfqs_recent_cpu_change (t : Ptr) (s : State) : Option State :=
  if t = s.idle_thread then some s
  else
    let term1 := wrap32 (MULT_INT s.load_avg 2)
    let divisor := wrap32 (ADD_INT term1 1)
    if divisor = 0 then none
    else
      let term2 := wrap32 (DIV_FP term1 divisor)
      let term3 := wrap32 (MULT_FP term2 (s.mem t).recent_cpu)
      some (s.store t { s.mem t with recent_cpu := wrap32 (ADD_INT term3 (s.mem t).nice) })

/-- The loop of `mlfqs_all_recent_cpu_change ()` over the elements `l` of `all_list`
still to visit. -/
def recent_cpu_loop : List Ptr → State → Option State
  | [], s => some s
  | t :: rest, s =>
    match mlfqs_recent_cpu_change t s with
    | none => none
    | some s' => recent_cpu_loop rest s'

/-- `mlfqs_all_recent_cpu_change ()`. -/
def mlfqs_all_recent_cpu_change (s : State) : Option State :=
  recent_cpu_loop s.all_list s

/-- Modelled from the spec: `list_sort` of lib/kernel/list.c (not among the sources)
sorts the list by `less` and keeps the order of elements that `less` does not
separate; here by ordered insertion of the elements from the back to the front. -/
def list_sort {α : Type} (less : α → α → Bool) : List α → List α
  | [] => []
  | e :: rest => list_insert_ordered (fun a b => !less b a) e (list_sort less rest)

/-- The loop of `mlfqs_all_priority_change ()` over the elements `l` of `all_list`
still to visit. -/
def priority_loop : List Ptr → State → State
  | [], s => s
  | t :: rest, s => priority_loop rest (mlfqs_priority_change t s)

/-- `mlfqs_all_priority_change ()`. The call of `maxpriority_check ()` at its end is
commented out in the source. -/
def mlfqs_all_priority_change (s : State) : State :=
  let s := priority_loop s.all_list s
  match s.ready_list with
  | [] => s
  | _ :: _ =>
    { s with ready_list := list_sort (compare_thread_priority s.mem) s.ready_list }

/-- `thread_get_recent_cpu ()`: 100 times the running thread's `recent_cpu`, as an
integer. -/
def thread_get_recent_cpu (s : State) : Option Int :=
  (thread_current s).map
    (fun t => wrap32 (FP_TO_INT_ROUND (wrap32 (MULT_INT (s.mem t).recent_cpu 100))))

/-- The thread structure after `memset (t, 0, sizeof *t)`; `THREAD_RUNNING` is the
status numbered 0. -/
def zero_thread : thread :=
  { tid := 0, status := THREAD_RUNNING, priority := 0, origin_priority := 0,
    priority_after := 0, donated_level := 0, is_donating := false, receiver := 0,
    donators := [], nice := 0, recent_cpu := 0, waketime := 0, magic := 0 }

/-- `init_thread (t, name, priority)`. `name` is the address of the name, `0` for
`NULL`; `strlcpy` writes only the member `name` of `*t`, which no function here reads
and the thread structure of the model leaves out. -/
def init_thread (t : Ptr) (name : Ptr) (priority : Int) (s : State) : Option State :=
  if t = 0 then none
  else if ¬ (PRI_MIN ≤ priority ∧ priority ≤ PRI_MAX) then none
  else if name = 0 then none
  else
    let s := s.store t zero_thread
    let s := s.store t
      { s.mem t with
        status := THREAD_BLOCKED, priority := priority, origin_priority := priority,
        donated_level := 0, is_donating := false, magic := THREAD_MAGIC, receiver := 0,
        priority_after := -1, donators := [] }
    let s := { s with all_list := s.all_list ++ [t] }
    if s.thread_mlfqs then
      if t = s.initial_thread then
        let s := s.store t { s.mem t with nice := 0, recent_cpu := 0 }
        some (mlfqs_priority_change t s)
      else
        match thread_get_nice s with
        | none => none
        | some nice =>
          let s := s.store t { s.mem t with nice := nice }
          match thread_get_recent_cpu s with
          | none => none
          | some recent_cpu =>
            let s := s.store t { s.mem t with recent_cpu := recent_cpu }
            some (mlfqs_priority_change t s)
    else some s

/-- Modelled from the spec: `TID_ERROR` of threads/thread.h (not among the sources),
the failure value of `thread_create`, with the value of the Pintos header. -/
def TID_ERROR : Int := -1

/-- `allocate_tid ()`: the identifier returned and the state left. The lock
`tid_lock` belongs to the synchronisation module and is taken as free. -/
def allocate_tid (s : State) : Int × State :=
  (s.next_tid, { s with next_tid := wrap32 (s.next_tid + 1) })

/-- `thread_create (name, priority, function, aux)`. `page` is what
`palloc_get_page (PAL_ZERO)` returns, `0` when the allocator has no page left;
`name` is the address of the name. The argument and the three stack frames are not
modelled. -/
def thread_create (page : Ptr) (name : Ptr) (priority : Int) (function : Ptr) (s : State) :
    Option (Int × State) :=
  if function = 0 then none
  else
    let t := page
    if t = 0 then some (TID_ERROR, s)
    else
      match init_thread t name priority s with
      | none => none
      | some s =>
        let (tid, s) := allocate_tid s
        let s := s.store t { s.mem t with tid := tid }
        match thread_current s with
        | none => none
        | some _ =>
          match thread_unblock t s with
          | none => none
          | some s =>
            match priority_yield s with
            | none => none
            | some s => some (tid, s)

/-- `next_wakeup_compare (ticks)`. -/
def next_wakeup_compare (ticks : Int) (s : State) : State :=
  if s.next_tick_to_awake > ticks then { s with next_tick_to_awake := ticks } else s

/-- `get_next_tick ()`. -/
def get_next_tick (s : State) : Int := s.next_tick_to_awake

/-- `thread_goto_sleep (ticks)` as far as the switch. `thread_block ()` hands the
processor to the next thread with the caller on `sleep_list`; the two statements
after it are run by the caller only when it has been woken and dispatched again, and
are `thread_goto_sleep_resume`. The early return for the idle thread leaves the
interrupts off. -/
def thread_goto_sleep (ticks : Int) (s : State) : Option State :=
  let s := { s with intr := INTR_OFF }
  match thread_current s with
  | none => none
  | some gotosleep =>
    if gotosleep = s.idle_thread then some s
    else
      let s := s.store gotosleep { s.mem gotosleep with waketime := ticks }
      let s := { s with sleep_list := s.sleep_list ++ [gotosleep] }
      thread_block s

/-- The end of `thread_goto_sleep (ticks)`, run by the sleeper once it is the running
thread again: `intr_set_level (old_level); next_wakeup_compare (ticks);`, with the
`old_level` and the `ticks` of its call. -/
def thread_goto_sleep_resume (old_level : intr_level) (ticks : Int) (s : State) : State :=
  next_wakeup_compare ticks { s with intr := old_level }

/-- The loop of `thread_goto_ready (ticks)` over the elements `l` of `sleep_list`
from `e` on. `list_remove` takes `t` out of `sleep_list`. -/
def goto_ready_loop (ticks : Int) : List Ptr → State → Option State
  | [], s => some s
  | t :: rest, s =>
    if ticks ≥ (s.mem t).waketime then
      match thread_unblock t { s with sleep_list := s.sleep_list.erase t } with
      | none => none
      | some s' => goto_ready_loop ticks rest s'
    else goto_ready_loop ticks rest (next_wakeup_compare (s.mem t).waketime s)

/-- `thread_goto_ready (ticks)`. -/
def thread_goto_ready (ticks : Int) (s : State) : Option State :=
  goto_ready_loop ticks s.sleep_list s

/-- `insert_donators (t)`: ordered insertion into the donators of the running
thread. -/
def insert_donators (t : Ptr) (s : State) : Option State :=
  match thread_current s with
  | none => none
  | some cur =>
    some (s.store cur
      { s.mem cur with
        donators := list_insert_ordered (compare_thread_priority s.mem) t
          (s.mem cur).donators })

/-- The address of the member `elem` of the thread at `t`, which is what the kernel
lists link. `off` is `offsetof (struct thread, elem)`; the layout of `struct thread`
is fixed by threads/thread.h (not among the sources), so it is a parameter. In the
lists of the model an element is written as the thread that embeds it. -/
def elem_addr (off : Nat) (t : Ptr) : Ptr := t + off

/-- `pop_donators ()`: takes the front off the donators of the running thread.
`list_pop_front` asserts that the list is not empty and returns a
`struct list_elem *`; the function returns that pointer as it is, under the type
`struct thread *`, with no `list_entry`: the value returned is the address of the
member `elem` of the front thread. -/
def pop_donators (off : Nat) (s : State) : Option (Ptr × State) :=
  match thread_current s with
  | none => none
  | some cur =>
    match (s.mem cur).donators with
    | [] => none
    | d :: rest =>
      some (elem_addr off d, s.store cur { s.mem cur with donators := rest })

/-! ## Properties -/

/-- The priority of the thread at `t`. -/
def prio (mem : Ptr → thread) (t : Ptr) : Int := (mem t).priority

/-- The list of thread pointers is ordered by descending priority. -/
def sortedDesc (mem : Ptr → thread) (l : List Ptr) : Prop :=
  l.Pairwise (fun a b => prio mem a ≥ prio mem b)

/-- The elements `list_insert_ordered` walks past when it inserts `t` into the
ready queue: priority no lower than that of `t`. -/
def notLower (mem : Ptr → thread) (t : Ptr) (e : Ptr) : Bool :=
  decide (prio mem e ≥ prio mem t)

/-- The memory `m` after the assignment `t->status = st`. -/
def set_status (m : Ptr → thread) (t : Ptr) (st : thread_status) : Ptr → thread :=
  fun p => if p = t then { m t with status := st } else m p

/-- The state after `n` consecutive calls of `thread_tick ()`, none of them followed
by a switch. -/
def thread_tick_n : Nat → State → Option State
  | 0, s => some s
  | n + 1, s =>
    match thread_tick_n n s with
    | none => none
    | some s' => thread_tick s'

/-- Whether a call of `thread_tick ()` in state `s` calls `intr_yield_on_return ()`:
the request flag is lowered before the call and read after it. -/
def tick_requests_yield (s : State) : Option Bool :=
  (thread_tick { s with yield_on_return := false }).map (fun s' => s'.yield_on_return)

/-- The state in which `thread_yield ()`, called by `cur`, calls `schedule ()`. -/
def yield_prepare (s : State) (cur : Ptr) : State :=
  let s := { s with intr := INTR_OFF }
  let s :=
    if cur != s.idle_thread then
      { s with
        ready_list := list_insert_ordered (compare_thread_priority s.mem) cur s.ready_list }
    else s
  s.store cur { s.mem cur with status := THREAD_READY }

/-- The state `s` with the policy flag `thread_mlfqs` set to `b`. -/
def set_mlfqs (b : Bool) (s : State) : State := { s with thread_mlfqs := b }

/-- The clamp of `x` to the interval from `lo` to `hi`. -/
def clamp (x lo hi : Int) : Int := max lo (min x hi)

/-- The MLFQS priority of the spec for the fixed-point `recent_cpu` value `r` and the
nice value `n`: `PRI_MAX - (recent_cpu / 4) - (nice * 2)`, the quotient converted to
the nearest integer, clamped to the priority bound. -/
def mlfqs_priority (r n : Int) : Int :=
  clamp (PRI_MAX - FP_TO_INT_ROUND (DIV_INT r 4) - n * 2) PRI_MIN PRI_MAX

/-- The priority `mlfqs_priority_change` stores for `recent_cpu = r` and `nice = n`:
the 32-bit value of the expression, then the two comparisons. -/
def stored_priority (r n : Int) : Int :=
  let p0 := wrap32 (PRI_MAX - FP_TO_INT_ROUND (wrap32 (DIV_INT r 4)) - wrap32 (2 * n))
  let p1 := if p0 ≤ PRI_MIN then PRI_MIN else p0
  if p1 ≥ PRI_MAX then PRI_MAX else p1

/-- The ready count of the spec: the size of the ready queue, plus one when the
running thread `c` is not the idle thread. -/
def ready_count (s : State) (c : Ptr) : Int :=
  (s.ready_list.length : Int) + (if c ≠ s.idle_thread then 1 else 0)

/-- The load average of the spec after one update, in fixed point:
`(59/60) * load_avg + (1/60) * ready_count`. -/
def next_load_avg (load_avg count : Int) : Int :=
  MULT_FP (DIV_INT (INT_TO_FP 59) 60) load_avg + MULT_INT (DIV_INT (INT_TO_FP 1) 60) count

/-- The `recent_cpu` of the spec after one update, in fixed point:
`(2 * load_avg) / (2 * load_avg + 1) * recent_cpu + nice`, the constant 1 and the
nice value converted to fixed point before they are added. -/
def next_recent_cpu (load_avg r n : Int) : Int :=
  ADD_INT (MULT_FP (DIV_FP (MULT_INT load_avg 2) (ADD_INT (MULT_INT load_avg 2) 1)) r) n

/-- The load average is not negative and twice its value plus 1.0 fits an `int`. -/
def load_avg_fits (load_avg : Int) : Prop :=
  0 ≤ load_avg ∧ isInt32 (ADD_INT (MULT_INT load_avg 2) 1)

/-- The `recent_cpu` of the thread at `t` and its updated value fit an `int`. -/
def recent_cpu_fits (s : State) (t : Ptr) : Prop :=
  isInt32 (s.mem t).recent_cpu ∧
    isInt32 (next_recent_cpu s.load_avg (s.mem t).recent_cpu (s.mem t).nice)

instance (x : Int) : Decidable (load_avg_fits x) := by unfold load_avg_fits; infer_instance

instance (s : State) (t : Ptr) : Decidable (recent_cpu_fits s t) := by
  unfold recent_cpu_fits; infer_instance

/-- The memory after the update of `recent_cpu` in every thread of `l` but the idle
thread. -/
def recent_cpu_updated (s : State) (l : List Ptr) : Ptr → thread := fun p =>
  if p ∈ l ∧ p ≠ s.idle_thread then
    { s.mem p with
      recent_cpu := next_recent_cpu s.load_avg (s.mem p).recent_cpu (s.mem p).nice }
  else s.mem p

/-- The state `thread_unblock (t)` returns when its assertions hold. -/
def unblocked (s : State) (t : Ptr) : State :=
  { s with
    mem := set_status s.mem t THREAD_READY
    ready_list := list_insert_ordered (compare_thread_priority s.mem) t s.ready_list }

/-- The thread at `t` is due at `now`: its wake tick is not after `now`. -/
def due (m : Ptr → thread) (now : Int) (t : Ptr) : Bool := decide ((m t).waketime ≤ now)

/-- The memory after the threads of `l` that are due at `now` have been made READY. -/
def woken (m : Ptr → thread) (now : Int) (l : List Ptr) : Ptr → thread := fun p =>
  if p ∈ l ∧ due m now p = true then { m p with status := THREAD_READY } else m p

/-- The cached earliest wake tick is not after the wake tick of any sleeping thread. -/
def cache_ok (s : State) : Prop :=
  ∀ t ∈ s.sleep_list, s.next_tick_to_awake ≤ (s.mem t).waketime

/-- The sleep list holds no thread twice and every thread on it is a BLOCKED
thread. -/
def sleepers_ok (s : State) : Prop :=
  s.sleep_list.Nodup ∧
    ∀ t ∈ s.sleep_list, is_thread s t = true ∧ (s.mem t).status = THREAD_BLOCKED

/-- A sequence of wake sweeps, at the ticks of the list. -/
def sweeps : List Int → State → Option State
  | [], s => some s
  | now :: rest, s =>
    match thread_goto_ready now s with
    | none => none
    | some s' => sweeps rest s'

/-- The state in `init_thread (t, name, priority)` after the members of `*t` are set
and `t` is on `all_list`, before the MLFQS part. -/
def init_basic (t : Ptr) (priority : Int) (s : State) : State :=
  let s := s.store t zero_thread
  let s := s.store t
    { s.mem t with
      status := THREAD_BLOCKED, priority := priority, origin_priority := priority,
      donated_level := 0, is_donating := false, magic := THREAD_MAGIC, receiver := 0,
      priority_after := -1, donators := [] }
  { s with all_list := s.all_list ++ [t] }

/-- The state in `thread_create` after `init_thread` has left `s1` and the new
thread at `t` has been given its identifier. -/
def with_tid (s1 : State) (t : Ptr) : State :=
  (allocate_tid s1).2.store t { (allocate_tid s1).2.mem t with tid := (allocate_tid s1).1 }

/-- The memory after the priority of every thread of `l` but the idle thread has been
recomputed by `mlfqs_priority_change`. -/
def priorities_updated (s : State) (l : List Ptr) : Ptr → thread := fun p =>
  if p ∈ l ∧ p ≠ s.idle_thread then
    { s.mem p with priority := stored_priority (s.mem p).recent_cpu (s.mem p).nice }
  else s.mem p

/-- The idle thread is in neither the ready queue nor the sleep list. -/
def idle_parked (s : State) : Prop :=
  s.idle_thread ∉ s.ready_list ∧ s.idle_thread ∉ s.sleep_list

/-- A call of one of the scheduler operations that move threads between the running
state, the ready queue and the sleep list; `thread_goto_sleep` is in two parts, up to
the switch and from the sleeper's next dispatch on. -/
inductive sched_op where
  | yield
  | block
  | goto_sleep (ticks : Int)
  | goto_sleep_resume (old_level : intr_level) (ticks : Int)
  | goto_ready (ticks : Int)
  | tick
  | dispatch

/-- One scheduler operation. -/
def run_sched_op (op : sched_op) (s : State) : Option State :=
  match op with
  | sched_op.yield => thread_yield s
  | sched_op.block => thread_block s
  | sched_op.goto_sleep ticks => thread_goto_sleep ticks s
  | sched_op.goto_sleep_resume old_level ticks =>
    some (thread_goto_sleep_resume old_level ticks s)
  | sched_op.goto_ready ticks => thread_goto_ready ticks s
  | sched_op.tick => thread_tick s
  | sched_op.dispatch => schedule s

/-- A sequence of completed scheduler operations. -/
def run_sched_ops : List sched_op → State → Option State
  | [], s => some s
  | op :: rest, s =>
    match run_sched_op op s with
    | none => none
    | some s' => run_sched_ops rest s'

/-- The largest load average the updates are followed to: `131071.0`, the largest
whole number a 32-bit fixed-point value can hold. -/
def LOAD_AVG_MAX : Int := 131071 * FRACTION

/-- A sequence of calls of `mlfqs_load_avg_change ()`, the only function that writes
`load_avg` after `thread_start`. Between two calls everything but `load_avg` may have
changed: the call for `e` of the list is made in the state `e`, with `load_avg` as the
call before left it. The result is the last `load_avg`. -/
def load_avg_steps : List State → Int → Option Int
  | [], l => some l
  | e :: rest, l =>
    match mlfqs_load_avg_change { e with load_avg := l } with
    | none => none
    | some s' => load_avg_steps rest s'.load_avg

/-! ## Sample states -/

/-- A live thread structure with the given identifier, status and priority, its other
members as `init_thread` sets them. -/
def mkThread (tid : Int) (st : thread_status) (p : Int) : thread :=
  { tid := tid, status := st, priority := p, origin_priority := p, priority_after := -1,
    donated_level := 0, is_donating := false, receiver := 0, donators := [],
    nice := 0, recent_cpu := 0, waketime := 0, magic := THREAD_MAGIC }

/-- The content of a page that holds no thread. -/
def noThread : thread :=
  { tid := 0, status := THREAD_DYING, priority := 0, origin_priority := 0,
    priority_after := 0, donated_level := 0, is_donating := false, receiver := 0,
    donators := [], nice := 0, recent_cpu := 0, waketime := 0, magic := 0 }

/-- Sample memory: the idle thread at 1 (blocked, priority 0), thread 2 running with
priority 31, threads 3 and 4 ready with priorities 40 and 31, thread 5 blocked with
priority 31, thread 6 blocked with priority 50. -/
def sampleMem : Ptr → thread := fun p =>
  if p = 1 then mkThread 2 THREAD_BLOCKED 0
  else if p = 2 then mkThread 1 THREAD_RUNNING 31
  else if p = 3 then mkThread 3 THREAD_READY 40
  else if p = 4 then mkThread 4 THREAD_READY 31
  else if p = 5 then mkThread 5 THREAD_BLOCKED 31
  else if p = 6 then mkThread 6 THREAD_BLOCKED 50
  else noThread

/-- Sample state under the round-robin policy: thread 2 runs, the ready queue is
`[3, 4]`, nobody sleeps, interrupts are on, no interrupt is being handled. -/
def sampleState : State :=
  { mem := sampleMem, ready_list := [3, 4], sleep_list := [], all_list := [2, 1, 3, 4, 5, 6],
    next_tick_to_awake := 0, load_avg := 0, idle_thread := 1, initial_thread := 2,
    running := 2, idle_ticks := 0, kernel_ticks := 0, thread_ticks := 0,
    thread_mlfqs := false, next_tid := 7, intr := INTR_ON, intr_context := false,
    yield_on_return := false }

/-- Sample state under the MLFQS policy: the sample state with `thread_mlfqs` set,
`load_avg = 1.0`, and the running thread 2 with `recent_cpu = 3.0` and `nice = 1`. -/
def mlfqsState : State :=
  { sampleState with
    thread_mlfqs := true
    load_avg := 1 * FRACTION
    mem := fun p =>
      if p = 2 then { mkThread 1 THREAD_RUNNING 31 with recent_cpu := 3 * FRACTION, nice := 1 }
      else sampleMem p }

/-- Sample state for donations: the sample state with the running thread 2 at
priority 1 (its `origin_priority` too) and no donators; thread 5 has priority 31. -/
def holderState : State :=
  sampleState.store 2 (mkThread 1 THREAD_RUNNING 1)

/-- Sample state with donators: the sample state where the running thread 2 has the
donators `[6, 5]`, the blocked threads of priorities 50 and 31, which are on neither
the ready queue nor the sleep list. -/
def donatedState : State :=
  sampleState.store 2 { mkThread 1 THREAD_RUNNING 31 with donators := [6, 5] }

/-- Sample state at a dispatch: the sample state where the running thread 2 has marked
itself blocked and turned interrupts off, and is about to call `schedule ()`. -/
def blockingState : State :=
  { sampleState.store 2 (mkThread 1 THREAD_BLOCKED 31) with intr := INTR_OFF }

/-- A run of scheduler operations from `blockingState`: a dispatch, a yield, two
threads going to sleep (after which the idle thread runs), then the idle thread
yielding, asking to sleep, being ticked, waking the sleepers and blocking, and the
first sleeper, dispatched again, finishing its `thread_goto_sleep (100)`. -/
def idleRun : List sched_op :=
  [sched_op.dispatch, sched_op.yield, sched_op.goto_sleep 100, sched_op.goto_sleep 200,
   sched_op.yield, sched_op.goto_sleep 5, sched_op.tick, sched_op.goto_ready 400,
   sched_op.block, sched_op.goto_sleep_resume INTR_OFF 100]

/-- Sample state with the idle thread running: the sample state after threads 2, 3
and 4 have blocked, the idle thread (at 1) running with an empty ready queue. -/
def idleState : State :=
  { sampleState with
    mem := fun p =>
      if p = 1 then mkThread 2 THREAD_RUNNING 0
      else if p = 5 ∨ p = 6 then sampleMem p
      else mkThread (sampleMem p).tid THREAD_BLOCKED (sampleMem p).priority
    ready_list := []
    running := 1 }

/-! ## Lemmas on ordered insertion -/

theorem list_insert_ordered_eq {α : Type} (less : α → α → Bool) (x : α) (l : List α) :
    list_insert_ordered less x l
      = l.takeWhile (fun e => !less x e) ++ x :: l.dropWhile (fun e => !less x e) := by
  induction l with
  | nil => rfl
  | cons e rest ih =>
    by_cases h : less x e = true
    · simp [list_insert_ordered, List.takeWhile, List.dropWhile, h]
    · simp [list_insert_ordered, List.takeWhile, List.dropWhile, h, ih]

theorem compare_not_eq_notLower (m : Ptr → thread) (t : Ptr) :
    (fun e => !compare_thread_priority m t e) = notLower m t := by
  funext e
  by_cases h : prio m e ≥ prio m t
  · have h' : ¬ (m t).priority > (m e).priority := by
      simp only [prio] at h; omega
    simp [compare_thread_priority, notLower, h, h']
  · have h' : (m t).priority > (m e).priority := by
      simp only [prio] at h; omega
    simp [compare_thread_priority, notLower, h, h']

theorem insert_ready_eq (m : Ptr → thread) (t : Ptr) (l : List Ptr) :
    list_insert_ordered (compare_thread_priority m) t l
      = l.takeWhile (notLower m t) ++ t :: l.dropWhile (notLower m t) := by
  rw [list_insert_ordered_eq, compare_not_eq_notLower]

theorem takeWhile_notLower (m : Ptr → thread) (t : Ptr) (l : List Ptr) :
    ∀ x ∈ l.takeWhile (notLower m t), prio m x ≥ prio m t := by
  intro x hx
  have := List.mem_takeWhile_imp hx
  simpa [notLower] using this

theorem dropWhile_lower (m : Ptr → thread) (t : Ptr) (l : List Ptr) (hs : sortedDesc m l) :
    ∀ x ∈ l.dropWhile (notLower m t), prio m x < prio m t := by
  induction l with
  | nil => intro x hx; simp at hx
  | cons e rest ih =>
    have hs' : sortedDesc m rest := (List.pairwise_cons.mp hs).2
    have he : ∀ y ∈ rest, prio m e ≥ prio m y := (List.pairwise_cons.mp hs).1
    by_cases h : notLower m t e = true
    · simpa [List.dropWhile, h] using ih hs'
    · intro x hx
      have hlt : prio m e < prio m t := by
        simp only [notLower, decide_eq_true_eq] at h; omega
      simp only [List.dropWhile, h] at hx
      rcases List.mem_cons.mp hx with rfl | hx
      · exact hlt
      · have := he x hx
        omega

theorem sortedDesc_insert (m : Ptr → thread) (t : Ptr) (l : List Ptr) (hs : sortedDesc m l) :
    sortedDesc m (l.takeWhile (notLower m t) ++ t :: l.dropWhile (notLower m t)) := by
  have htk := takeWhile_notLower m t l
  have hdr := dropWhile_lower m t l hs
  unfold sortedDesc
  rw [List.pairwise_append]
  refine ⟨hs.sublist (List.takeWhile_sublist _), ?_, ?_⟩
  · rw [List.pairwise_cons]
    refine ⟨fun y hy => ?_, hs.sublist (List.dropWhile_sublist _)⟩
    have := hdr y hy
    omega
  · intro a ha b hb
    have h1 := htk a ha
    rcases List.mem_cons.mp hb with rfl | hb
    · exact h1
    · have := hdr b hb
      omega

theorem sortedDesc_congr (m m' : Ptr → thread) (l : List Ptr)
    (h : ∀ p, (m' p).priority = (m p).priority) :
    sortedDesc m' l ↔ sortedDesc m l := by
  have : (fun a b => prio m' a ≥ prio m' b) = (fun a b => prio m a ≥ prio m b) := by
    funext a b; simp [prio, h]
  simp [sortedDesc, this]

/-! ## The ready queue -/

/-- C1: for a ready queue sorted by descending priority and a BLOCKED thread `t`,
`thread_unblock (t)` succeeds; the new state is the old one with `t` marked READY and
the queue replaced by the old queue with `t` put between its longest prefix of
priorities no lower than that of `t` and the rest. Every thread before `t` has a
priority greater than or equal to that of `t` (so `t` is behind its equals), every
thread after `t` has a strictly lower priority, and the new queue is sorted
descending. -/
theorem thread_unblock_spec (s : State) (t : Ptr)
    (hthr : is_thread s t = true) (hblk : (s.mem t).status = THREAD_BLOCKED)
    (hs : sortedDesc s.mem s.ready_list) :
    ∃ s' : State,
      thread_unblock t s = some s' ∧
      s' = ({ s with
              ready_list := s.ready_list.takeWhile (notLower s.mem t)
                ++ t :: s.ready_list.dropWhile (notLower s.mem t) }).store t
              { s.mem t with status := THREAD_READY } ∧
      s.ready_list.takeWhile (notLower s.mem t) ++ s.ready_list.dropWhile (notLower s.mem t)
        = s.ready_list ∧
      (∀ x ∈ s.ready_list.takeWhile (notLower s.mem t), prio s.mem x ≥ prio s.mem t) ∧
      (∀ x ∈ s.ready_list.dropWhile (notLower s.mem t), prio s.mem x < prio s.mem t) ∧
      (s'.mem t).status = THREAD_READY ∧
      (∀ p, prio s'.mem p = prio s.mem p) ∧
      sortedDesc s'.mem s'.ready_list := by
  have hp : ∀ p, ((s.store t { s.mem t with status := THREAD_READY }).mem p).priority
      = (s.mem p).priority := by
    intro p
    by_cases hp : p = t
    · subst hp; simp [State.store]
    · simp [State.store, hp]
  refine ⟨_, ?_, rfl, List.takeWhile_append_dropWhile _ _, takeWhile_notLower s.mem t _,
    dropWhile_lower s.mem t _ hs, ?_, ?_, ?_⟩
  · simp only [thread_unblock, hthr, hblk, insert_ready_eq]
    simp [State.store]
  · simp [State.store]
  · exact hp
  · exact (sortedDesc_congr s.mem _ _ hp).mpr (sortedDesc_insert s.mem t _ hs)

/-- Witness of C1: unblocking thread 5 (priority 31) in the sample state, whose ready
queue is `[3, 4]` with priorities 40 and 31, gives the queue `[3, 4, 5]`. -/
theorem thread_unblock_spec_witness :
    ∃ s' : State, thread_unblock 5 sampleState = some s' ∧ s'.ready_list = [3, 4, 5] ∧
      (s'.mem 5).status = THREAD_READY := by
  obtain ⟨s', h1, h2, -⟩ := thread_unblock_spec sampleState 5 (by decide) (by decide)
    (by unfold sortedDesc; decide)
  refine ⟨s', h1, ?_, ?_⟩
  · subst h2; decide
  · subst h2; decide

/-- C2: `next_thread_to_run ()` returns the idle thread and leaves the state as it is
when the ready queue is empty; otherwise it returns the front element and leaves the
queue without it, and when the queue is sorted by descending priority the thread
returned has a priority greater than or equal to that of every thread left. -/
theorem next_thread_to_run_spec (s : State) :
    (s.ready_list = [] → next_thread_to_run s = (s.idle_thread, s)) ∧
    (∀ f rest, s.ready_list = f :: rest →
      next_thread_to_run s = (f, { s with ready_list := rest }) ∧
      (sortedDesc s.mem s.ready_list →
        ∀ x ∈ (next_thread_to_run s).2.ready_list, prio s.mem f ≥ prio s.mem x)) := by
  refine ⟨fun h => ?_, fun f rest h => ⟨?_, fun hs x hx => ?_⟩⟩
  · simp [next_thread_to_run, h]
  · simp [next_thread_to_run, h]
  · rw [h] at hs
    have hx' : x ∈ rest := by simpa [next_thread_to_run, h] using hx
    exact (List.pairwise_cons.mp hs).1 x hx'

/-- Witness of C2: in the sample state `next_thread_to_run ()` returns thread 3 and
leaves `[4]`; with the queue emptied it returns the idle thread 1. -/
theorem next_thread_to_run_spec_witness :
    (next_thread_to_run sampleState).1 = 3 ∧
    (next_thread_to_run sampleState).2.ready_list = [4] ∧
    (∀ x ∈ (next_thread_to_run sampleState).2.ready_list,
      prio sampleState.mem 3 ≥ prio sampleState.mem x) ∧
    next_thread_to_run { sampleState with ready_list := [] }
      = (1, { sampleState with ready_list := [] }) := by
  have h := next_thread_to_run_spec sampleState
  have h' := next_thread_to_run_spec { sampleState with ready_list := [] }
  obtain ⟨h1, h2⟩ := h.2 3 [4] rfl
  refine ⟨?_, ?_, h2 (by unfold sortedDesc; decide), h'.1 rfl⟩
  · rw [h1]
  · rw [h1]

/-! ## Yielding -/

theorem thread_current_eq_some (s : State) (c : Ptr) :
    thread_current s = some c ↔
      s.running = c ∧ is_thread s c = true ∧ (s.mem c).status = THREAD_RUNNING := by
  unfold thread_current running_thread
  by_cases h1 : is_thread s s.running = true
  · by_cases h2 : (s.mem s.running).status = THREAD_RUNNING
    · simp only [h1, h2]
      constructor
      · intro h
        have : s.running = c := by simpa using h
        subst this
        exact ⟨rfl, h1, h2⟩
      · rintro ⟨rfl, -, -⟩
        simp
    · simp only [h1, h2]
      constructor
      · intro h; simp at h; exact absurd h.1 h2
      · rintro ⟨rfl, -, h⟩; exact absurd h h2
  · simp only [h1]
    constructor
    · intro h; simp at h
    · rintro ⟨rfl, h, -⟩; exact absurd h h1

theorem set_status_priority (m : Ptr → thread) (t : Ptr) (st : thread_status) (p : Ptr) :
    (set_status m t st p).priority = (m p).priority := by
  unfold set_status
  by_cases h : p = t
  · subst h; simp
  · simp [h]

theorem set_status_magic (m : Ptr → thread) (t : Ptr) (st : thread_status) (p : Ptr) :
    (set_status m t st p).magic = (m p).magic := by
  unfold set_status
  by_cases h : p = t
  · subst h; simp
  · simp [h]

theorem set_status_same (m : Ptr → thread) (t : Ptr) (st : thread_status) :
    (set_status m t st t).status = st := by
  simp [set_status]

theorem set_status_other (m : Ptr → thread) (t : Ptr) (st : thread_status) (p : Ptr)
    (h : p ≠ t) : set_status m t st p = m p := by
  simp [set_status, h]

theorem prio_set_status (m : Ptr → thread) (t : Ptr) (st : thread_status) (p : Ptr) :
    prio (set_status m t st) p = prio m p :=
  set_status_priority m t st p

theorem set_status_restore (m : Ptr → thread) (c f : Ptr) (hne : c ≠ f)
    (hc : (m c).status = THREAD_RUNNING) (hf : (m f).status = THREAD_READY) :
    set_status (set_status (set_status (set_status m c THREAD_READY) f THREAD_RUNNING)
      f THREAD_READY) c THREAD_RUNNING = m := by
  funext p
  by_cases h1 : p = c
  · subst h1
    simp only [set_status, hne, if_true, if_false]
    rw [← hc]
  · by_cases h2 : p = f
    · subst h2
      simp only [set_status, h1, if_true, if_false]
      rw [← hf]
    · simp [set_status, h1, h2]

/-- The state `thread_yield ()` reaches when the non-idle thread `c` yields and the
thread `f` at the front of the queue `f :: rest` is dispatched. -/
theorem thread_yield_dispatch (s : State) (c f : Ptr) (rest : List Ptr)
    (hcur : thread_current s = some c) (hidle : c ≠ s.idle_thread)
    (hctx : s.intr_context = false) (hq : s.ready_list = f :: rest)
    (hf : is_thread s f = true) (hpr : prio s.mem f ≥ prio s.mem c) (hne : c ≠ f) :
    thread_yield s = some
      { s with
        mem := set_status (set_status s.mem c THREAD_READY) f THREAD_RUNNING
        ready_list := rest.takeWhile (notLower s.mem c) ++ c :: rest.dropWhile (notLower s.mem c)
        running := f
        thread_ticks := 0 } := by
  obtain ⟨hr, hthr, hst⟩ := (thread_current_eq_some s c).mp hcur
  have hnl : notLower s.mem c f = true := by
    simp only [notLower, decide_eq_true_eq]; omega
  have hfc : f ≠ c := fun h => hne h.symm
  have hf0 : f ≠ 0 := by
    intro h; subst h; simp [is_thread] at hf
  have hfm : (s.mem f).magic = THREAD_MAGIC := by
    simpa [is_thread, hf0] using hf
  simp only [thread_yield, hcur, hctx, insert_ready_eq, hq]
  simp [hidle, List.takeWhile, List.dropWhile, hnl, schedule, next_thread_to_run,
    running_thread, hr, State.store, thread_schedule_tail, is_thread, hf0, hfm, hfc, hne]
  funext p
  by_cases h1 : p = f
  · subst h1; simp [set_status, hfc, hfm]
  · simp [set_status, h1]

theorem takeWhile_dropWhile_of_lower (m : Ptr → thread) (t : Ptr) (l : List Ptr)
    (h : ∀ x ∈ l, prio m x < prio m t) :
    l.takeWhile (notLower m t) = [] ∧ l.dropWhile (notLower m t) = l := by
  cases l with
  | nil => simp
  | cons e rest =>
    have he : notLower m t e = false := by
      have := h e (List.mem_cons_self _ _)
      simp only [notLower, decide_eq_false_iff_not]; omega
    simp [List.takeWhile, List.dropWhile, he]

theorem is_thread_congr (s s' : State) (t : Ptr) (h : (s'.mem t).magic = (s.mem t).magic) :
    is_thread s' t = is_thread s t := by
  simp [is_thread, h]

/-- C3: when the non-idle running thread `c` calls `thread_yield ()` outside an
interrupt handler, the ready queue `f :: rest` is sorted descending, its front `f` is
a thread with the priority of `c`, and `c` is not queued, then `c` becomes READY and
is put into `rest` behind every thread of priority greater than or equal to its own
and before the strictly lower ones, `f` leaves the queue and becomes the RUNNING
thread with a fresh time slice, and the queue stays sorted. If moreover every thread
of `rest` has a lower priority and `f` is READY, not idle and not in `rest`, the next
yield (by `f`) dispatches `c` again and restores the state `s` with a fresh time
slice: the two threads alternate. -/
theorem thread_yield_round_robin (s : State) (c f : Ptr) (rest : List Ptr)
    (hcur : thread_current s = some c) (hidle : c ≠ s.idle_thread)
    (hctx : s.intr_context = false) (hq : s.ready_list = f :: rest)
    (hs : sortedDesc s.mem s.ready_list) (hf : is_thread s f = true)
    (hpr : prio s.mem f = prio s.mem c) (hnc : c ∉ s.ready_list) :
    ∃ s' : State,
      thread_yield s = some s' ∧
      (s'.mem c).status = THREAD_READY ∧
      s'.ready_list
        = rest.takeWhile (notLower s.mem c) ++ c :: rest.dropWhile (notLower s.mem c) ∧
      rest.takeWhile (notLower s.mem c) ++ rest.dropWhile (notLower s.mem c) = rest ∧
      (∀ x ∈ rest.takeWhile (notLower s.mem c), prio s.mem x ≥ prio s.mem c) ∧
      (∀ x ∈ rest.dropWhile (notLower s.mem c), prio s.mem x < prio s.mem c) ∧
      s'.running = f ∧
      thread_current s' = some f ∧
      (f ∉ rest → f ∉ s'.ready_list) ∧
      s'.thread_ticks = 0 ∧
      (∀ p, prio s'.mem p = prio s.mem p) ∧
      sortedDesc s'.mem s'.ready_list ∧
      (f ≠ s.idle_thread → f ∉ rest → (s.mem f).status = THREAD_READY →
        (∀ x ∈ rest, prio s.mem x < prio s.mem c) →
        s'.ready_list = c :: rest ∧
        thread_yield s' = some { s with thread_ticks := 0 }) := by
  have hne : c ≠ f := by
    intro h; apply hnc; rw [hq, h]; exact List.mem_cons_self _ _
  have hfc : f ≠ c := fun h => hne h.symm
  obtain ⟨hr, hthr, hst⟩ := (thread_current_eq_some s c).mp hcur
  have hsr : sortedDesc s.mem rest := by
    rw [hq] at hs; exact (List.pairwise_cons.mp hs).2
  have hstep := thread_yield_dispatch s c f rest hcur hidle hctx hq hf (le_of_eq hpr.symm) hne
  have hp : ∀ p, prio (set_status (set_status s.mem c THREAD_READY) f THREAD_RUNNING) p
      = prio s.mem p := by
    intro p; rw [prio_set_status, prio_set_status]
  have hcur' : thread_current
      { s with
        mem := set_status (set_status s.mem c THREAD_READY) f THREAD_RUNNING
        ready_list := rest.takeWhile (notLower s.mem c) ++ c :: rest.dropWhile (notLower s.mem c)
        running := f
        thread_ticks := 0 } = some f := by
    rw [thread_current_eq_some]
    refine ⟨rfl, ?_, set_status_same _ _ _⟩
    rw [← hf]
    apply is_thread_congr
    show (set_status (set_status s.mem c THREAD_READY) f THREAD_RUNNING f).magic = _
    rw [set_status_magic, set_status_magic]
  refine ⟨_, hstep, ?_, rfl, List.takeWhile_append_dropWhile _ _,
    takeWhile_notLower s.mem c rest, dropWhile_lower s.mem c rest hsr, rfl, hcur', ?_, rfl, hp,
    ?_, ?_⟩
  · show (set_status (set_status s.mem c THREAD_READY) f THREAD_RUNNING c).status = _
    rw [set_status_other _ _ _ _ hne, set_status_same]
  · intro hfr' hmem
    rcases List.mem_append.mp hmem with h | h
    · exact hfr' ((List.takeWhile_sublist _).subset h)
    · rcases List.mem_cons.mp h with h | h
      · exact hfc h
      · exact hfr' ((List.dropWhile_sublist _).subset h)
  · refine (sortedDesc_congr s.mem _ _ ?_).mpr (sortedDesc_insert s.mem c rest hsr)
    intro p; exact hp p
  · intro hfi hfr' hfs hlow
    obtain ⟨htk, hdr⟩ := takeWhile_dropWhile_of_lower s.mem c rest hlow
    have hlist : rest.takeWhile (notLower s.mem c) ++ c :: rest.dropWhile (notLower s.mem c)
        = c :: rest := by rw [htk, hdr]; rfl
    refine ⟨hlist, ?_⟩
    have hlow' : ∀ x ∈ rest,
        prio (set_status (set_status s.mem c THREAD_READY) f THREAD_RUNNING) x
        < prio (set_status (set_status s.mem c THREAD_READY) f THREAD_RUNNING) f := by
      intro x hx
      rw [hp x, hp f, hpr]
      exact hlow x hx
    obtain ⟨htk', hdr'⟩ := takeWhile_dropWhile_of_lower _ f rest hlow'
    rw [thread_yield_dispatch _ f c rest hcur' hfi hctx hlist ?_ ?_ hfc]
    · simp only [htk', hdr', List.nil_append]
      rw [set_status_restore s.mem c f hne hst hfs]
      simp only [hq, hr]
    · rw [← hthr]
      apply is_thread_congr
      show (set_status (set_status s.mem c THREAD_READY) f THREAD_RUNNING c).magic = _
      rw [set_status_magic, set_status_magic]
    · show prio (set_status (set_status s.mem c THREAD_READY) f THREAD_RUNNING) c
        ≥ prio (set_status (set_status s.mem c THREAD_READY) f THREAD_RUNNING) f
      rw [hp c, hp f, hpr]

/-- Witness of C3: thread 2 runs and thread 4 is the only ready thread, both with
priority 31. When 2 yields, 4 runs and the queue is `[2]`; when 4 yields in turn, the
first state is back, with a fresh time slice. -/
theorem thread_yield_round_robin_witness :
    ∃ s' : State,
      thread_yield { sampleState with ready_list := [4] } = some s' ∧
      s'.running = 4 ∧ s'.ready_list = [2] ∧ (s'.mem 2).status = THREAD_READY ∧
      thread_yield s' = some { sampleState with ready_list := [4] } := by
  obtain ⟨s', h1, h2, -, -, -, -, h7, -, -, -, -, -, h13⟩ :=
    thread_yield_round_robin { sampleState with ready_list := [4] } 2 4 []
      (by decide) (by decide) rfl rfl (by unfold sortedDesc; decide) (by decide)
      (by decide) (by decide)
  obtain ⟨h14, h15⟩ := h13 (by decide) (by simp) (by decide) (by simp)
  exact ⟨s', h1, h7, h14, h2, h15⟩

/-! ## The time slice -/

theorem thread_tick_eq (s : State) (hthr : is_thread s s.running = true)
    (hst : (s.mem s.running).status = THREAD_RUNNING) :
    thread_tick s = some
      { s with
        idle_ticks := if s.running = s.idle_thread then s.idle_ticks + 1 else s.idle_ticks
        kernel_ticks := if s.running = s.idle_thread then s.kernel_ticks else s.kernel_ticks + 1
        thread_ticks := (s.thread_ticks + 1) % 4294967296
        yield_on_return :=
          decide ((s.thread_ticks + 1) % 4294967296 ≥ TIME_SLICE) || s.yield_on_return } := by
  have hcur : thread_current s = some s.running :=
    (thread_current_eq_some s s.running).mpr ⟨rfl, hthr, hst⟩
  by_cases hge : (s.thread_ticks + 1) % 4294967296 ≥ TIME_SLICE <;>
    by_cases hi : s.running = s.idle_thread <;>
    simp [thread_tick, hcur, hi, hge, intr_yield_on_return]

theorem thread_tick_n_eq (s : State) (hthr : is_thread s s.running = true)
    (hst : (s.mem s.running).status = THREAD_RUNNING) (h0 : s.thread_ticks = 0) (n : Nat) :
    ∃ s' : State, thread_tick_n n s = some s' ∧ s'.mem = s.mem ∧ s'.running = s.running ∧
      s'.thread_ticks = n % 4294967296 := by
  induction n with
  | zero => exact ⟨s, rfl, rfl, rfl, by simp [h0]⟩
  | succ n ih =>
    obtain ⟨s', h1, h2, h3, h4⟩ := ih
    have hthr' : is_thread s' s'.running = true := by
      rw [h3, ← hthr]; exact is_thread_congr s s' _ (by rw [h2])
    have hst' : (s'.mem s'.running).status = THREAD_RUNNING := by rw [h2, h3]; exact hst
    have ht := thread_tick_eq s' hthr' hst'
    have hn : thread_tick_n (n + 1) s = thread_tick s' := by simp only [thread_tick_n, h1]
    rw [hn, ht]
    refine ⟨_, rfl, h2, h3, ?_⟩
    show (s'.thread_ticks + 1) % 4294967296 = (n + 1) % 4294967296
    rw [h4]; omega

theorem tick_requests_yield_eq (s : State) (hthr : is_thread s s.running = true)
    (hst : (s.mem s.running).status = THREAD_RUNNING) :
    tick_requests_yield s
      = some (decide ((s.thread_ticks + 1) % 4294967296 ≥ TIME_SLICE)) := by
  unfold tick_requests_yield
  rw [thread_tick_eq { s with yield_on_return := false } hthr hst]
  simp

theorem thread_schedule_tail_some (prev : Ptr) (s0 s : State)
    (h : thread_schedule_tail prev s0 = some s) :
    s.thread_ticks = 0 ∧ s.running = s0.running ∧
      (s.mem s.running).status = THREAD_RUNNING := by
  simp only [thread_schedule_tail, running_thread] at h
  split_ifs at h <;> (injection h with h; subst h; simp [State.store])

/-- C4, as amended: under the round-robin policy, from the time-slice counter 0 that
`thread_schedule_tail` installs, the `n`-th consecutive call of `thread_tick ()` with
no switch in between, for `1 ≤ n < 2^32`, requests a yield on return from the
interrupt if and only if `n ≥ 4`. -/
theorem thread_tick_time_slice (s0 s : State) (prev : Ptr) (n : Nat)
    (htail : thread_schedule_tail prev s0 = some s) (hthr : is_thread s s.running = true)
    (hn : 1 ≤ n) (hlt : n < 4294967296) :
    s.thread_ticks = 0 ∧
    ∃ sn : State, thread_tick_n (n - 1) s = some sn ∧
      tick_requests_yield sn = some (decide (n ≥ TIME_SLICE)) := by
  obtain ⟨h0, -, hst⟩ := thread_schedule_tail_some prev s0 s htail
  obtain ⟨sn, h1, h2, h3, h4⟩ := thread_tick_n_eq s hthr hst h0 (n - 1)
  have hthr' : is_thread sn sn.running = true := by
    rw [h3, ← hthr]; exact is_thread_congr s sn _ (by rw [h2])
  have hst' : (sn.mem sn.running).status = THREAD_RUNNING := by rw [h2, h3]; exact hst
  refine ⟨h0, sn, h1, ?_⟩
  rw [tick_requests_yield_eq sn hthr' hst', h4]
  have : ((n - 1) % 4294967296 + 1) % 4294967296 = n := by omega
  rw [this]

/-- Witness of C4 as amended: after a dispatch in the sample state the first three
ticks request nothing and the fourth requests a yield. -/
theorem thread_tick_time_slice_witness :
    ∃ s : State,
      thread_schedule_tail 0 { sampleState with intr := INTR_OFF } = some s ∧
      (∃ sn : State, thread_tick_n 2 s = some sn ∧ tick_requests_yield sn = some false) ∧
      (∃ sn : State, thread_tick_n 3 s = some sn ∧ tick_requests_yield sn = some true) := by
  refine ⟨_, rfl, ?_, ?_⟩
  · exact (thread_tick_time_slice { sampleState with intr := INTR_OFF } _ 0 3 rfl
      (by decide) (by decide) (by decide)).2
  · exact (thread_tick_time_slice { sampleState with intr := INTR_OFF } _ 0 4 rfl
      (by decide) (by decide) (by decide)).2

/-- Counterexample to C4 as stated: `thread_ticks` is an `unsigned`, so after a
dispatch in the sample state the `2^32`-th consecutive call of `thread_tick ()`
increments the counter from `2^32 - 1` to `0` and requests no yield, although
`2^32 ≥ 4`. -/
theorem thread_tick_wraps :
    ∃ s sn : State,
      thread_schedule_tail 0 { sampleState with intr := INTR_OFF } = some s ∧
      thread_tick_n (4294967296 - 1) s = some sn ∧
      tick_requests_yield sn = some false ∧
      decide (4294967296 ≥ TIME_SLICE) = true := by
  obtain ⟨sn, h1, h2, h3, h4⟩ := thread_tick_n_eq
    { sampleState with
      intr := INTR_OFF
      mem := fun p => if p = 2 then { sampleState.mem 2 with status := THREAD_RUNNING }
        else sampleState.mem p
      thread_ticks := 0 }
    (by decide) (by decide) rfl (4294967296 - 1)
  have hthr' : is_thread sn sn.running = true := by
    rw [h3]; simp only [is_thread, h2]; decide
  have hst' : (sn.mem sn.running).status = THREAD_RUNNING := by rw [h2, h3]; decide
  refine ⟨_, sn, ?_, h1, ?_, by decide⟩
  · simp [thread_schedule_tail, State.store, running_thread, sampleState]
  · rw [tick_requests_yield_eq sn hthr' hst', h4]
    decide

/-! ## Setting the priority -/

/-- C5: when the running thread `c` has `donated_level > 0` or `is_donating` set,
`thread_set_priority (new_priority)` stores `new_priority` in `c->priority_after` and
changes nothing else: the priority of `c`, every other thread, the ready queue and
the running thread are as before (no yield). -/
theorem thread_set_priority_deferred (s : State) (c : Ptr) (new_priority : Int)
    (hcur : thread_current s = some c)
    (hd : (s.mem c).donated_level > 0 ∨ (s.mem c).is_donating = true) :
    thread_set_priority new_priority s
      = some (s.store c { s.mem c with priority_after := new_priority }) ∧
    ∀ s' : State, thread_set_priority new_priority s = some s' →
      (s'.mem c).priority_after = new_priority ∧
      (s'.mem c).priority = (s.mem c).priority ∧
      (s'.mem c).origin_priority = (s.mem c).origin_priority ∧
      (s'.mem c).status = (s.mem c).status ∧
      (∀ p, p ≠ c → s'.mem p = s.mem p) ∧
      s'.ready_list = s.ready_list ∧
      s'.running = s.running ∧
      thread_current s' = some c := by
  have hcond : ((s.mem c).donated_level != 0 || (s.mem c).is_donating) = true := by
    rcases hd with h | h
    · have : (s.mem c).donated_level ≠ 0 := by omega
      simp [this]
    · simp [h]
  have hres : thread_set_priority new_priority s
      = some (s.store c { s.mem c with priority_after := new_priority }) := by
    simp only [thread_set_priority, hcur, hcond, if_true]
  obtain ⟨hr, hthr, hst⟩ := (thread_current_eq_some s c).mp hcur
  refine ⟨hres, ?_⟩
  intro s' hs'
  rw [hres] at hs'
  injection hs' with hs'
  subst hs'
  refine ⟨by simp [State.store], by simp [State.store], by simp [State.store],
    by simp [State.store], ?_, rfl, rfl, ?_⟩
  · intro p hp
    simp [State.store, hp]
  · rw [thread_current_eq_some]
    refine ⟨hr, ?_, by simp [State.store, hst]⟩
    rw [← hthr]
    exact is_thread_congr s _ c (by simp [State.store])

/-- Witness of C5: in the sample state with `is_donating` set in the running thread 2,
`thread_set_priority (5)` stores 5 in `priority_after` and leaves the priority 31, the
queue `[3, 4]` and the running thread. -/
theorem thread_set_priority_deferred_witness :
    (thread_set_priority 5
        (sampleState.store 2 { sampleState.mem 2 with is_donating := true })).map
      (fun s' => ((s'.mem 2).priority_after, (s'.mem 2).priority, s'.ready_list, s'.running))
      = some (5, 31, [3, 4], 2) := by
  rw [(thread_set_priority_deferred
    (sampleState.store 2 { sampleState.mem 2 with is_donating := true }) 2 5
    (by decide) (Or.inr (by decide))).1]
  decide

/-- C6: when the running thread `c` has `donated_level = 0` and `is_donating` clear,
`thread_set_priority (new_priority)` sets `c->priority` to `new_priority` at once and
then makes the preemption check: with an empty ready queue, or a front thread whose
priority is not above `new_priority`, nothing more happens; with a front thread of
priority strictly above `new_priority` the thread calls `thread_yield ()`, which, for
a front thread `f` other than `c`, a non-idle `c` and outside an interrupt handler,
leaves `c` READY and `f` running. -/
theorem thread_set_priority_immediate (s : State) (c : Ptr) (new_priority : Int)
    (hcur : thread_current s = some c)
    (hd : (s.mem c).donated_level = 0) (hnd : (s.mem c).is_donating = false) :
    (s.ready_list = [] →
      thread_set_priority new_priority s
        = some (s.store c { s.mem c with priority := new_priority })) ∧
    (∀ f rest, s.ready_list = f :: rest →
      ((s.store c { s.mem c with priority := new_priority }).mem c).priority = new_priority ∧
      (¬ new_priority < ((s.store c { s.mem c with priority := new_priority }).mem f).priority →
        thread_set_priority new_priority s
          = some (s.store c { s.mem c with priority := new_priority })) ∧
      (new_priority < ((s.store c { s.mem c with priority := new_priority }).mem f).priority →
        thread_set_priority new_priority s
          = thread_yield (s.store c { s.mem c with priority := new_priority }) ∧
        (c ≠ f → c ≠ s.idle_thread → s.intr_context = false → is_thread s f = true →
          ∃ s' : State, thread_set_priority new_priority s = some s' ∧
            s'.running = f ∧ (s'.mem c).status = THREAD_READY ∧
            (s'.mem c).priority = new_priority ∧ thread_current s' = some f))) := by
  have hcond : ((s.mem c).donated_level != 0 || (s.mem c).is_donating) = false := by
    simp [hd, hnd]
  obtain ⟨hr, hthr, hst⟩ := (thread_current_eq_some s c).mp hcur
  have hcur1 : thread_current (s.store c { s.mem c with priority := new_priority }) = some c := by
    rw [thread_current_eq_some]
    refine ⟨hr, ?_, by simp [State.store, hst]⟩
    rw [← hthr]
    exact is_thread_congr s _ c (by simp [State.store])
  refine ⟨fun hq => ?_, fun f rest hq => ⟨by simp [State.store], fun hlt => ?_, fun hlt => ?_⟩⟩
  · simp only [thread_set_priority, hcur, hcond]
    have : (s.store c { s.mem c with priority := new_priority }).ready_list = [] := hq
    simp [this]
  · simp only [thread_set_priority, hcur, hcond]
    have hq1 : (s.store c { s.mem c with priority := new_priority }).ready_list = f :: rest := hq
    have hc1 : ((s.store c { s.mem c with priority := new_priority }).mem c).priority
        = new_priority := by simp [State.store]
    simp only [hq1, priority_yield, hcur1, hc1, hlt]
    simp
  · have hq1 : (s.store c { s.mem c with priority := new_priority }).ready_list = f :: rest := hq
    have hc1 : ((s.store c { s.mem c with priority := new_priority }).mem c).priority
        = new_priority := by simp [State.store]
    have hres : thread_set_priority new_priority s
        = thread_yield (s.store c { s.mem c with priority := new_priority }) := by
      simp only [thread_set_priority, hcur, hcond]
      simp only [hq1, priority_yield, hcur1, hc1, hlt]
      simp
    refine ⟨hres, fun hne hidle hctx hf => ?_⟩
    have hf1 : is_thread (s.store c { s.mem c with priority := new_priority }) f = true := by
      rw [← hf]
      apply is_thread_congr
      have : f ≠ c := fun h => hne h.symm
      simp [State.store, this]
    have hstep := thread_yield_dispatch (s.store c { s.mem c with priority := new_priority })
      c f rest hcur1 hidle hctx hq1 hf1 (le_of_lt (lt_of_eq_of_lt hc1 hlt)) hne
    rw [hres, hstep]
    refine ⟨_, rfl, rfl, ?_, ?_, ?_⟩
    · show (set_status (set_status _ c THREAD_READY) f THREAD_RUNNING c).status = _
      rw [set_status_other _ _ _ _ hne, set_status_same]
    · show (set_status (set_status _ c THREAD_READY) f THREAD_RUNNING c).priority = _
      rw [set_status_priority, set_status_priority]
      exact hc1
    · rw [thread_current_eq_some]
      refine ⟨rfl, ?_, set_status_same _ _ _⟩
      rw [← hf1]
      apply is_thread_congr
      show (set_status (set_status _ c THREAD_READY) f THREAD_RUNNING f).magic = _
      rw [set_status_magic, set_status_magic]

/-- Witness of C6: in the sample state (thread 2 runs with priority 31, the queue is
`[3, 4]` with priorities 40 and 31) `thread_set_priority (35)` sets the priority to
35, below that of the front thread 3, so thread 2 yields and thread 3 runs. -/
theorem thread_set_priority_immediate_witness :
    ∃ s' : State, thread_set_priority 35 sampleState = some s' ∧
      s'.running = 3 ∧ (s'.mem 2).status = THREAD_READY ∧ (s'.mem 2).priority = 35 := by
  obtain ⟨-, -, h⟩ := (thread_set_priority_immediate sampleState 2 35 (by decide)
    (by decide) (by decide)).2 3 [4] rfl
  obtain ⟨s', h1, h2, h3, h4, -⟩ := (h (by decide)).2 (by decide) (by decide) rfl (by decide)
  exact ⟨s', h1, h2, h3, h4⟩

/-! ## The policy flag -/

theorem thread_current_mlfqs (b : Bool) (s : State) :
    thread_current (set_mlfqs b s) = thread_current s := rfl

theorem thread_schedule_tail_mlfqs (b : Bool) (prev : Ptr) (s : State) :
    thread_schedule_tail prev (set_mlfqs b s)
      = (thread_schedule_tail prev s).map (set_mlfqs b) := by
  simp only [thread_schedule_tail, running_thread, State.store, set_mlfqs]
  split_ifs <;> rfl

theorem schedule_mlfqs (b : Bool) (s : State) :
    schedule (set_mlfqs b s) = (schedule s).map (set_mlfqs b) := by
  have hrl : (set_mlfqs b s).ready_list = s.ready_list := rfl
  cases hq : s.ready_list with
  | nil =>
    simp only [schedule, next_thread_to_run, hrl, hq, running_thread, is_thread]
    show (if s.intr != INTR_OFF then none
      else if (s.mem s.running).status == THREAD_RUNNING then none
      else if !(s.idle_thread != 0 && (s.mem s.idle_thread).magic == THREAD_MAGIC) then none
      else if s.running != s.idle_thread then
        thread_schedule_tail s.running
          (set_mlfqs b { s with ready_list := [], running := s.idle_thread })
      else thread_schedule_tail 0 (set_mlfqs b s)) = _
    rw [thread_schedule_tail_mlfqs, thread_schedule_tail_mlfqs]
    split_ifs <;> rfl
  | cons f rest =>
    simp only [schedule, next_thread_to_run, hrl, hq, running_thread, is_thread]
    show (if s.intr != INTR_OFF then none
      else if (s.mem s.running).status == THREAD_RUNNING then none
      else if !(f != 0 && (s.mem f).magic == THREAD_MAGIC) then none
      else if s.running != f then
        thread_schedule_tail s.running
          (set_mlfqs b { s with ready_list := rest, running := f })
      else thread_schedule_tail 0 (set_mlfqs b { s with ready_list := rest })) = _
    rw [thread_schedule_tail_mlfqs, thread_schedule_tail_mlfqs]
    split_ifs <;> rfl

theorem thread_yield_eq (s : State) :
    thread_yield s = match thread_current s with
      | none => none
      | some cur =>
        if s.intr_context then none
        else (schedule (yield_prepare s cur)).map (fun s' => { s' with intr := s.intr }) := by
  unfold thread_yield
  cases thread_current s with
  | none => rfl
  | some cur =>
    show (if s.intr_context then none
      else match schedule (yield_prepare s cur) with
        | none => none
        | some s' => some { s' with intr := s.intr })
      = (if s.intr_context then none
        else (schedule (yield_prepare s cur)).map (fun s' => { s' with intr := s.intr }))
    cases schedule (yield_prepare s cur) <;> rfl

theorem yield_prepare_mlfqs (b : Bool) (s : State) (cur : Ptr) :
    yield_prepare (set_mlfqs b s) cur = set_mlfqs b (yield_prepare s cur) := by
  unfold yield_prepare set_mlfqs
  by_cases hi : cur = s.idle_thread
  · simp [hi, State.store]
  · simp [hi, State.store]

theorem thread_yield_mlfqs (b : Bool) (s : State) :
    thread_yield (set_mlfqs b s) = (thread_yield s).map (set_mlfqs b) := by
  rw [thread_yield_eq, thread_yield_eq, thread_current_mlfqs]
  cases thread_current s with
  | none => rfl
  | some cur =>
    show (if s.intr_context then none
        else (schedule (yield_prepare (set_mlfqs b s) cur)).map
          (fun s' => { s' with intr := s.intr }))
      = Option.map (set_mlfqs b)
        (if s.intr_context then none
          else (schedule (yield_prepare s cur)).map (fun s' => { s' with intr := s.intr }))
    rw [yield_prepare_mlfqs, schedule_mlfqs]
    cases schedule (yield_prepare s cur) <;> cases s.intr_context <;> rfl

theorem priority_yield_mlfqs (b : Bool) (s : State) :
    priority_yield (set_mlfqs b s) = (priority_yield s).map (set_mlfqs b) := by
  have hrl : (set_mlfqs b s).ready_list = s.ready_list := rfl
  have hm : (set_mlfqs b s).mem = s.mem := rfl
  simp only [priority_yield, thread_current_mlfqs, hrl, hm]
  cases thread_current s with
  | none => rfl
  | some ct =>
    cases hq : s.ready_list with
    | nil => rfl
    | cons f rest =>
      simp only []
      split_ifs
      · exact thread_yield_mlfqs b s
      · rfl

theorem store_mlfqs (b : Bool) (s : State) (t : Ptr) (v : thread) :
    (set_mlfqs b s).store t v = set_mlfqs b (s.store t v) := rfl

theorem thread_set_priority_mlfqs (b : Bool) (p : Int) (s : State) :
    thread_set_priority p (set_mlfqs b s) = (thread_set_priority p s).map (set_mlfqs b) := by
  have hm : (set_mlfqs b s).mem = s.mem := rfl
  simp only [thread_set_priority, thread_current_mlfqs, hm, store_mlfqs]
  cases thread_current s with
  | none => rfl
  | some ct =>
    simp only []
    split_ifs
    · rfl
    · have hrl : ∀ s1 : State, (set_mlfqs b s1).ready_list = s1.ready_list := fun _ => rfl
      rw [hrl]
      cases hq : (s.store ct { s.mem ct with priority := p }).ready_list with
      | nil => rfl
      | cons f rest => exact priority_yield_mlfqs b _

/-- Counterexample to C7: with `thread_mlfqs` set, in the sample state (thread 2 runs
with priority 31, the ready queue is `[3, 4]`), `thread_set_priority (35)` is not a
no-op: the priority of thread 2 becomes 35, thread 2 yields to thread 3 and the ready
queue becomes `[2, 4]`. -/
theorem thread_set_priority_under_mlfqs :
    (set_mlfqs true sampleState).thread_mlfqs = true ∧
    thread_get_priority (set_mlfqs true sampleState) = some 31 ∧
    (set_mlfqs true sampleState).running = 2 ∧
    (set_mlfqs true sampleState).ready_list = [3, 4] ∧
    (thread_set_priority 35 (set_mlfqs true sampleState)).map
      (fun s' => (s'.thread_mlfqs, (s'.mem 2).priority, s'.running, s'.ready_list))
      = some (true, 35, 3, [2, 4]) := by
  refine ⟨rfl, by decide, rfl, rfl, by decide⟩

/-- C7, as amended: `thread_set_priority` neither reads nor writes `thread_mlfqs`.
While the MLFQS policy is active it does exactly what it does under the round-robin
policy: the result with the flag set is the result with the flag clear, with the
flag set again. -/
theorem thread_set_priority_ignores_mlfqs (new_priority : Int) (s : State) :
    thread_set_priority new_priority (set_mlfqs true s)
      = (thread_set_priority new_priority (set_mlfqs false s)).map (set_mlfqs true) := by
  rw [thread_set_priority_mlfqs true, thread_set_priority_mlfqs false]
  cases thread_set_priority new_priority s <;> rfl

/-! ## MLFQS -/

/-- C8, evaluated: with `thread_mlfqs` set, `thread_set_nice (n)` returns at once and
leaves every state as it is; in the sample state `thread_get_nice ()` is still 0
after `thread_set_nice (5)` and the priority is still 31. With `thread_mlfqs` clear
the same call sets the nice value to 5 and recomputes the priority to 53. -/
theorem thread_set_nice_under_mlfqs :
    (∀ (n : Int) (s : State), thread_set_nice n (set_mlfqs true s) = some (set_mlfqs true s)) ∧
    (thread_set_nice 5 (set_mlfqs true sampleState)).bind thread_get_nice = some 0 ∧
    (thread_set_nice 5 (set_mlfqs true sampleState)).bind thread_get_priority = some 31 ∧
    (thread_set_nice 5 (set_mlfqs false sampleState)).bind thread_get_nice = some 5 ∧
    (thread_set_nice 5 (set_mlfqs false sampleState)).bind thread_get_priority = some 53 := by
  refine ⟨fun n s => rfl, by decide, by decide, by decide, by decide⟩

theorem wrap32_of_isInt32 (x : Int) (h : isInt32 x) : wrap32 x = x := by
  unfold isInt32 at h
  unfold wrap32
  omega

theorem tdiv_cases (x k : Int) (hk : 0 < k) :
    (0 ≤ x ∧ Int.tdiv x k = x / k) ∨ (x < 0 ∧ Int.tdiv x k = -((-x) / k)) := by
  by_cases h : 0 ≤ x
  · exact Or.inl ⟨h, Int.tdiv_eq_ediv h (le_of_lt hk)⟩
  · right
    refine ⟨by omega, ?_⟩
    have h1 : Int.tdiv (-x) k = (-x) / k := Int.tdiv_eq_ediv (by omega) (le_of_lt hk)
    have h2 : Int.tdiv (-(-x)) k = -(Int.tdiv (-x) k) := Int.neg_tdiv _ _
    rw [neg_neg] at h2
    rw [h2, h1]

theorem store_mem_same (s : State) (t : Ptr) (v : thread) : (s.store t v).mem t = v := by
  simp [State.store]

theorem store_store (s : State) (t : Ptr) (v w : thread) :
    (s.store t v).store t w = s.store t w := by
  unfold State.store
  congr 1
  funext p
  by_cases h : p = t <;> simp [h]

theorem mlfqs_priority_change_eq (s : State) (t : Ptr) (h : t ≠ s.idle_thread) :
    mlfqs_priority_change t s
      = s.store t { s.mem t with
          priority := stored_priority (s.mem t).recent_cpu (s.mem t).nice } := by
  simp only [mlfqs_priority_change, h, if_false, stored_priority, store_mem_same]
  generalize wrap32 (PRI_MAX - FP_TO_INT_ROUND (wrap32 (DIV_INT (s.mem t).recent_cpu 4))
    - wrap32 (2 * (s.mem t).nice)) = p0
  by_cases h1 : p0 ≤ PRI_MIN
  · simp only [h1, if_true, store_mem_same, store_store]
    by_cases h2 : PRI_MIN ≥ PRI_MAX
    · simp only [h2, if_true, store_mem_same, store_store]
    · simp only [h2, if_false]
  · simp only [h1, if_false, store_mem_same]
    by_cases h2 : p0 ≥ PRI_MAX
    · simp only [h2, if_true, store_mem_same, store_store]
    · simp only [h2, if_false]

theorem stored_priority_bounds (r n : Int) :
    PRI_MIN ≤ stored_priority r n ∧ stored_priority r n ≤ PRI_MAX := by
  simp only [stored_priority, PRI_MIN, PRI_MAX]
  split_ifs <;> omega

theorem DIV_INT_four_isInt32 (r : Int) (h : isInt32 r) : isInt32 (DIV_INT r 4) := by
  unfold isInt32 at *
  unfold DIV_INT
  rcases tdiv_cases r 4 (by decide) with ⟨h0, h1⟩ | ⟨h0, h1⟩ <;> rw [h1] <;> omega

theorem stored_priority_eq (r n : Int) (hr : isInt32 r) (hn : isInt32 (2 * n))
    (hp : isInt32 (PRI_MAX - FP_TO_INT_ROUND (DIV_INT r 4) - 2 * n)) :
    stored_priority r n = mlfqs_priority r n := by
  simp only [stored_priority, mlfqs_priority, clamp]
  rw [wrap32_of_isInt32 _ (DIV_INT_four_isInt32 r hr), wrap32_of_isInt32 _ hn,
    wrap32_of_isInt32 _ hp]
  generalize FP_TO_INT_ROUND (DIV_INT r 4) = k
  simp only [PRI_MIN, PRI_MAX, max_def, min_def]
  split_ifs <;> omega

theorem FP_TO_INT_ROUND_nearest (x : Int) :
    2 * |x - FRACTION * FP_TO_INT_ROUND x| ≤ FRACTION := by
  unfold FP_TO_INT_ROUND FRACTION
  have h2 : Int.tdiv 16384 2 = 8192 := by decide
  rw [h2]
  by_cases hx : x ≥ 0
  · simp only [hx, if_true]
    rw [Int.tdiv_eq_ediv (by omega) (by decide)]
    have h := abs_le.mpr (⟨by omega, by omega⟩ :
      -8192 ≤ x - 16384 * ((x + 8192) / 16384) ∧ x - 16384 * ((x + 8192) / 16384) ≤ 8192)
    omega
  · simp only [hx, if_false]
    rcases tdiv_cases (x - 8192) 16384 (by decide) with ⟨h0, h1⟩ | ⟨h0, h1⟩
    · omega
    · rw [h1]
      have h := abs_le.mpr (⟨by omega, by omega⟩ :
        -8192 ≤ x - 16384 * -(-(x - 8192) / 16384)
          ∧ x - 16384 * -(-(x - 8192) / 16384) ≤ 8192)
      omega

/-- C9: for the idle thread `mlfqs_priority_change` leaves the state as it is. For any
other thread `t`, with fixed-point `recent_cpu` value `r` and nice value `n`, it only
stores a new priority in `t`, which always lies between `PRI_MIN` and `PRI_MAX`; when
`r` is an `int` and neither `2 * n` nor the whole expression overflows an `int`, that
priority is `clamp (PRI_MAX - round (r / 4) - 2 * n, PRI_MIN, PRI_MAX)`, where the
conversion `round` is within half a unit of its fixed-point argument; for `r = 4.0`
(raw `4 * 2^14`) and `n = 0` it is `PRI_MAX - 1`. -/
theorem mlfqs_priority_change_spec (s : State) (t : Ptr) :
    (t = s.idle_thread → mlfqs_priority_change t s = s) ∧
    (t ≠ s.idle_thread →
      mlfqs_priority_change t s
        = s.store t { s.mem t with
            priority := ((mlfqs_priority_change t s).mem t).priority } ∧
      PRI_MIN ≤ ((mlfqs_priority_change t s).mem t).priority ∧
      ((mlfqs_priority_change t s).mem t).priority ≤ PRI_MAX ∧
      (isInt32 (s.mem t).recent_cpu → isInt32 (2 * (s.mem t).nice) →
        isInt32 (PRI_MAX - FP_TO_INT_ROUND (DIV_INT (s.mem t).recent_cpu 4)
          - 2 * (s.mem t).nice) →
        ((mlfqs_priority_change t s).mem t).priority
          = clamp (PRI_MAX - FP_TO_INT_ROUND (DIV_INT (s.mem t).recent_cpu 4)
              - (s.mem t).nice * 2) PRI_MIN PRI_MAX) ∧
      ((s.mem t).recent_cpu = 4 * FRACTION → (s.mem t).nice = 0 →
        ((mlfqs_priority_change t s).mem t).priority = PRI_MAX - 1)) ∧
    (∀ x : Int, 2 * |x - FRACTION * FP_TO_INT_ROUND x| ≤ FRACTION) := by
  refine ⟨fun h => ?_, fun h => ?_, FP_TO_INT_ROUND_nearest⟩
  · simp [mlfqs_priority_change, h]
  · have heq := mlfqs_priority_change_eq s t h
    have hp : ((mlfqs_priority_change t s).mem t).priority
        = stored_priority (s.mem t).recent_cpu (s.mem t).nice := by
      rw [heq, store_mem_same]
    rw [hp]
    refine ⟨heq, (stored_priority_bounds _ _).1, (stored_priority_bounds _ _).2,
      fun hr hn hov => stored_priority_eq _ _ hr hn hov, fun hr hn => ?_⟩
    rw [hr, hn]
    decide

/-- Witness of C9: the running thread 2 of the sample state with `recent_cpu = 4.0`
and `nice = 0` gets the priority `PRI_MAX - 1`. -/
theorem mlfqs_priority_change_spec_witness :
    ((mlfqs_priority_change 2
        (sampleState.store 2 { sampleState.mem 2 with recent_cpu := 4 * FRACTION })).mem 2).priority
      = PRI_MAX - 1 :=
  ((mlfqs_priority_change_spec
    (sampleState.store 2 { sampleState.mem 2 with recent_cpu := 4 * FRACTION }) 2).2.1
      (by decide)).2.2.2.2 (by decide) (by decide)

theorem MULT_FP_nonneg (a x : Int) (ha : 0 ≤ a) (hx : 0 ≤ x) : 0 ≤ MULT_FP a x := by
  unfold MULT_FP FRACTION
  rw [Int.tdiv_eq_ediv (mul_nonneg ha hx) (by decide)]
  exact Int.ediv_nonneg (mul_nonneg ha hx) (by decide)

/-- C10: `mlfqs_load_avg_change ()`, called with running thread `c`, replaces
`load_avg` by the fixed-point value `(59/60) * load_avg + (1/60) * ready_count`,
where `ready_count` is the size of the ready queue plus one when `c` is not the idle
thread, and changes nothing else (for a non-negative `load_avg`, and a count and a
result that fit an `int`); from `load_avg = 0`, a non-idle running thread and an
empty ready queue, the new `load_avg` is the fixed-point value of `1/60`, the
largest `x` with `60 * x ≤ 2^14`. -/
theorem mlfqs_load_avg_change_spec (s : State) (c : Ptr) (hcur : thread_current s = some c) :
    (0 ≤ s.load_avg → isInt32 (ready_count s c) →
      isInt32 (next_load_avg s.load_avg (ready_count s c)) →
      mlfqs_load_avg_change s
        = some { s with
            load_avg := MULT_FP (DIV_INT (INT_TO_FP 59) 60) s.load_avg
              + MULT_INT (DIV_INT (INT_TO_FP 1) 60) (ready_count s c) }) ∧
    (s.load_avg = 0 → c ≠ s.idle_thread → s.ready_list = [] →
      mlfqs_load_avg_change s = some { s with load_avg := DIV_INT (INT_TO_FP 1) 60 }) ∧
    (60 * DIV_INT (INT_TO_FP 1) 60 ≤ FRACTION ∧ FRACTION < 60 * (DIV_INT (INT_TO_FP 1) 60 + 1)) ∧
    (60 * DIV_INT (INT_TO_FP 59) 60 ≤ 59 * FRACTION ∧
      59 * FRACTION < 60 * (DIV_INT (INT_TO_FP 59) 60 + 1)) := by
  have h59 : DIV_INT (INT_TO_FP 59) 60 = 16110 := by decide
  have h1 : DIV_INT (INT_TO_FP 1) 60 = 273 := by decide
  have main : 0 ≤ s.load_avg → isInt32 (ready_count s c) →
      isInt32 (next_load_avg s.load_avg (ready_count s c)) →
      mlfqs_load_avg_change s
        = some { s with
            load_avg := MULT_FP (DIV_INT (INT_TO_FP 59) 60) s.load_avg
              + MULT_INT (DIV_INT (INT_TO_FP 1) 60) (ready_count s c) } := by
    intro hl hc hv
    have hlen : (0 : Int) ≤ (s.ready_list.length : Int) := Int.ofNat_nonneg _
    have hterm : (if c != s.idle_thread then wrap32 (wrap32 (s.ready_list.length : Int) + 1)
        else wrap32 (s.ready_list.length : Int)) = ready_count s c := by
      unfold ready_count isInt32 at *
      by_cases hi : c = s.idle_thread
      · simp only [hi, bne_self_eq_false, Bool.false_eq_true, if_false, ne_eq,
          not_true_eq_false] at hc ⊢
        unfold wrap32; omega
      · have hb : (c != s.idle_thread) = true := by simp [hi]
        simp only [hb, if_true, ne_eq, hi, not_false_eq_true] at hc ⊢
        unfold wrap32; omega
    have hnn : 0 ≤ next_load_avg s.load_avg (ready_count s c) := by
      unfold next_load_avg
      have hc0 : 0 ≤ ready_count s c := by
        unfold ready_count; split_ifs <;> omega
      have := MULT_FP_nonneg (DIV_INT (INT_TO_FP 59) 60) s.load_avg (by rw [h59]; decide) hl
      have h2 : 0 ≤ MULT_INT (DIV_INT (INT_TO_FP 1) 60) (ready_count s c) := by
        rw [h1]; unfold MULT_INT; omega
      omega
    simp only [mlfqs_load_avg_change, hcur, hterm]
    rw [show MULT_FP (DIV_INT (INT_TO_FP 59) 60) s.load_avg
        + MULT_INT (DIV_INT (INT_TO_FP 1) 60) (ready_count s c)
        = next_load_avg s.load_avg (ready_count s c) from rfl, wrap32_of_isInt32 _ hv]
    simp [hnn]
  refine ⟨main, fun hl hi hq => ?_, ?_, ?_⟩
  · have hrc : ready_count s c = 1 := by simp [ready_count, hq, hi]
    have hv : next_load_avg s.load_avg (ready_count s c) = DIV_INT (INT_TO_FP 1) 60 := by
      rw [hrc, hl]; decide
    have := main (by omega) (by rw [hrc]; decide) (by rw [hv]; decide)
    rw [this]
    show some { s with load_avg := next_load_avg s.load_avg (ready_count s c) } = _
    rw [hv]
  · rw [h1]; decide
  · rw [h59]; decide

/-- Witness of C10: in the sample state with an empty ready queue (thread 2 runs,
`load_avg = 0`) one update leaves `load_avg` at the fixed-point value of `1/60`. -/
theorem mlfqs_load_avg_change_spec_witness :
    (mlfqs_load_avg_change { sampleState with ready_list := [] }).map (fun s' => s'.load_avg)
      = some (DIV_INT (INT_TO_FP 1) 60) := by
  rw [(mlfqs_load_avg_change_spec { sampleState with ready_list := [] } 2 (by decide)).2.1
    rfl (by decide) rfl]
  rfl

/-! ## The recent CPU time -/

theorem DIV_FP_bounds (a : Int) (ha : 0 ≤ a) :
    0 ≤ DIV_FP a (a + 1 * FRACTION) ∧ DIV_FP a (a + 1 * FRACTION) ≤ FRACTION := by
  unfold DIV_FP FRACTION
  have hd : (0 : Int) < a + 1 * 16384 := by omega
  rw [Int.tdiv_eq_ediv (by positivity) (le_of_lt hd)]
  constructor
  · exact Int.ediv_nonneg (by positivity) (le_of_lt hd)
  · apply Int.ediv_le_of_le_mul hd
    nlinarith

theorem MULT_FP_isInt32 (q r : Int) (hq0 : 0 ≤ q) (hq : q ≤ FRACTION) (hr : isInt32 r) :
    isInt32 (MULT_FP q r) := by
  unfold isInt32 at *
  unfold MULT_FP
  unfold FRACTION at *
  by_cases hr0 : 0 ≤ r
  · have h1 : 0 ≤ q * r := by positivity
    have h2 : q * r ≤ 16384 * r := by nlinarith
    rw [Int.tdiv_eq_ediv h1 (by decide)]
    generalize q * r = m at h1 h2
    omega
  · have h1 : q * r ≤ 0 := by nlinarith
    have h2 : 16384 * r ≤ q * r := by nlinarith
    generalize q * r = m at h1 h2
    rcases tdiv_cases m 16384 (by decide) with ⟨h0, h3⟩ | ⟨h0, h3⟩ <;> rw [h3] <;> omega

theorem mlfqs_recent_cpu_change_eq (s : State) (t : Ptr) (ht : t ≠ s.idle_thread)
    (hl : load_avg_fits s.load_avg) (hf : recent_cpu_fits s t) :
    mlfqs_recent_cpu_change t s
      = some (s.store t { s.mem t with
          recent_cpu := next_recent_cpu s.load_avg (s.mem t).recent_cpu (s.mem t).nice }) := by
  obtain ⟨hl0, hl1⟩ := hl
  obtain ⟨hr, hn⟩ := hf
  have ha : 0 ≤ MULT_INT s.load_avg 2 := by unfold MULT_INT; omega
  have hw1 : wrap32 (MULT_INT s.load_avg 2) = MULT_INT s.load_avg 2 := by
    apply wrap32_of_isInt32
    unfold isInt32 ADD_INT FRACTION at *
    omega
  have hw2 : wrap32 (ADD_INT (MULT_INT s.load_avg 2) 1) = ADD_INT (MULT_INT s.load_avg 2) 1 :=
    wrap32_of_isInt32 _ hl1
  have hne : ADD_INT (MULT_INT s.load_avg 2) 1 ≠ 0 := by
    unfold ADD_INT FRACTION; omega
  have hq := DIV_FP_bounds (MULT_INT s.load_avg 2) ha
  have hw3 : wrap32 (DIV_FP (MULT_INT s.load_avg 2) (ADD_INT (MULT_INT s.load_avg 2) 1))
      = DIV_FP (MULT_INT s.load_avg 2) (ADD_INT (MULT_INT s.load_avg 2) 1) := by
    apply wrap32_of_isInt32
    have h1 := hq.1
    have h2 := hq.2
    unfold ADD_INT
    unfold isInt32 FRACTION at *
    omega
  have hw4 : wrap32 (MULT_FP (DIV_FP (MULT_INT s.load_avg 2)
      (ADD_INT (MULT_INT s.load_avg 2) 1)) (s.mem t).recent_cpu)
      = MULT_FP (DIV_FP (MULT_INT s.load_avg 2) (ADD_INT (MULT_INT s.load_avg 2) 1))
        (s.mem t).recent_cpu :=
    wrap32_of_isInt32 _ (MULT_FP_isInt32 _ _ hq.1 hq.2 hr)
  have hw5 : wrap32 (ADD_INT (MULT_FP (DIV_FP (MULT_INT s.load_avg 2)
      (ADD_INT (MULT_INT s.load_avg 2) 1)) (s.mem t).recent_cpu) (s.mem t).nice)
      = next_recent_cpu s.load_avg (s.mem t).recent_cpu (s.mem t).nice :=
    wrap32_of_isInt32 _ hn
  simp only [mlfqs_recent_cpu_change, ht, if_false, hw1, hw2, hne, hw3, hw4, hw5]

theorem recent_cpu_updated_nil (s : State) : recent_cpu_updated s [] = s.mem := by
  funext p
  simp [recent_cpu_updated]

theorem recent_cpu_updated_idle (s : State) (t : Ptr) (rest : List Ptr)
    (ht : t = s.idle_thread) :
    recent_cpu_updated s (t :: rest) = recent_cpu_updated s rest := by
  funext p
  unfold recent_cpu_updated
  by_cases hp : p = t
  · have : p = s.idle_thread := hp.trans ht
    simp [this]
  · simp [hp]

theorem recent_cpu_updated_store (s : State) (t : Ptr) (rest : List Ptr)
    (ht : t ≠ s.idle_thread) (hnot : t ∉ rest) :
    recent_cpu_updated
        (s.store t { s.mem t with
          recent_cpu := next_recent_cpu s.load_avg (s.mem t).recent_cpu (s.mem t).nice }) rest
      = recent_cpu_updated s (t :: rest) := by
  funext p
  unfold recent_cpu_updated
  by_cases hp : p = t
  · subst hp
    simp [State.store, hnot, ht]
  · simp [State.store, hp]

theorem recent_cpu_loop_eq (l : List Ptr) :
    ∀ s : State, l.Nodup → load_avg_fits s.load_avg →
      (∀ t ∈ l, t ≠ s.idle_thread → recent_cpu_fits s t) →
      recent_cpu_loop l s = some { s with mem := recent_cpu_updated s l } := by
  induction l with
  | nil =>
    intro s _ _ _
    rw [recent_cpu_updated_nil]
    rfl
  | cons t rest ih =>
    intro s hnd hl hf
    obtain ⟨hnot, hnd'⟩ := List.nodup_cons.mp hnd
    by_cases ht : t = s.idle_thread
    · have hstep : mlfqs_recent_cpu_change t s = some s := by
        simp [mlfqs_recent_cpu_change, ht]
      simp only [recent_cpu_loop, hstep]
      rw [ih s hnd' hl (fun x hx => hf x (List.mem_cons_of_mem _ hx)),
        recent_cpu_updated_idle s t rest ht]
    · have hstep := mlfqs_recent_cpu_change_eq s t ht hl (hf t (List.mem_cons_self _ _) ht)
      have hih := ih (s.store t { s.mem t with
          recent_cpu := next_recent_cpu s.load_avg (s.mem t).recent_cpu (s.mem t).nice })
        hnd' hl (by
          intro x hx hxi
          have hxt : x ≠ t := fun h => hnot (h ▸ hx)
          have := hf x (List.mem_cons_of_mem _ hx) hxi
          simpa [recent_cpu_fits, State.store, hxt] using this)
      rw [recent_cpu_updated_store s t rest ht hnot] at hih
      simp only [recent_cpu_loop, hstep]
      exact hih

/-- C11: with a load average that is not negative and fits an `int`,
`mlfqs_recent_cpu_change` sets the `recent_cpu` of a thread `t` other than the idle
thread to `(2 * load_avg) / (2 * load_avg + 1) * recent_cpu + nice` in fixed point,
the constant 1 and the nice value converted to fixed point before they are added
(when the old and the new value fit an `int`), and changes nothing else; it leaves
the idle thread as it is. `mlfqs_all_recent_cpu_change` applies this update once to
every thread of a duplicate-free `all_list`, whatever its status, and leaves the idle
thread and every thread outside the list as they are. -/
theorem mlfqs_recent_cpu_change_spec (s : State) (hl : load_avg_fits s.load_avg) :
    (∀ t, t ≠ s.idle_thread → recent_cpu_fits s t →
      mlfqs_recent_cpu_change t s
        = some (s.store t { s.mem t with
            recent_cpu :=
              ADD_INT (MULT_FP (DIV_FP (MULT_INT s.load_avg 2)
                (ADD_INT (MULT_INT s.load_avg 2) 1)) (s.mem t).recent_cpu) (s.mem t).nice })) ∧
    mlfqs_recent_cpu_change s.idle_thread s = some s ∧
    (s.all_list.Nodup → (∀ t ∈ s.all_list, t ≠ s.idle_thread → recent_cpu_fits s t) →
      ∃ s' : State, mlfqs_all_recent_cpu_change s = some s' ∧
        s' = { s with mem := s'.mem } ∧
        (∀ t ∈ s.all_list, t ≠ s.idle_thread →
          s'.mem t = { s.mem t with
            recent_cpu :=
              ADD_INT (MULT_FP (DIV_FP (MULT_INT s.load_avg 2)
                (ADD_INT (MULT_INT s.load_avg 2) 1)) (s.mem t).recent_cpu) (s.mem t).nice }) ∧
        s'.mem s.idle_thread = s.mem s.idle_thread ∧
        (∀ t, t ∉ s.all_list → s'.mem t = s.mem t)) := by
  refine ⟨fun t ht hf => mlfqs_recent_cpu_change_eq s t ht hl hf, ?_, fun hnd hf => ?_⟩
  · simp [mlfqs_recent_cpu_change]
  · refine ⟨_, recent_cpu_loop_eq s.all_list s hnd hl hf, rfl, ?_, ?_, ?_⟩
    · intro t ht hti
      show recent_cpu_updated s s.all_list t = _
      simp [recent_cpu_updated, ht, hti, next_recent_cpu]
    · show recent_cpu_updated s s.all_list s.idle_thread = _
      simp [recent_cpu_updated]
    · intro t ht
      show recent_cpu_updated s s.all_list t = _
      simp [recent_cpu_updated, ht]

/-- Witness of C11: in the MLFQS sample state (`load_avg = 1.0`) the running thread 2
with `recent_cpu = 3.0` and `nice = 1` gets `recent_cpu = 49150`, the fixed-point
`(2/3) * 3.0 + 1`; the blocked thread 5 is updated too (from 0 to 0) and the idle
thread 1 is left as it is. -/
theorem mlfqs_recent_cpu_change_spec_witness :
    ∃ s' : State, mlfqs_all_recent_cpu_change mlfqsState = some s' ∧
      (s'.mem 2).recent_cpu = 49150 ∧ (s'.mem 5).recent_cpu = 0 ∧
      s'.mem 1 = mlfqsState.mem 1 := by
  obtain ⟨s', h1, -, h3, h4, -⟩ :=
    (mlfqs_recent_cpu_change_spec mlfqsState (by decide)).2.2 (by decide) (by decide)
  refine ⟨s', h1, ?_, ?_, h4⟩
  · rw [h3 2 (by decide) (by decide)]; decide
  · rw [h3 5 (by decide) (by decide)]; decide

/-! ## Thread creation -/

/-- C12, evaluated: under MLFQS, with the running thread 2 at `recent_cpu = 3.0` (raw
`3 * 2^14`) and `nice = 1`, `init_thread` gives a new thread (page 7, its name at the
non-null address 9) the nice value
1 of its creator but the `recent_cpu` value 300, which is what
`thread_get_recent_cpu ()` returns (100 times the creator's `recent_cpu`, rounded to
an integer), not the creator's fixed-point value 49152. The bootstrap thread starts
with nice 0 and `recent_cpu` 0. -/
theorem init_thread_recent_cpu_scaled :
    thread_current mlfqsState = some 2 ∧
    (mlfqsState.mem 2).recent_cpu = 49152 ∧
    (mlfqsState.mem 2).nice = 1 ∧
    thread_get_recent_cpu mlfqsState = some 300 ∧
    (init_thread 7 9 31 mlfqsState).map (fun s' => ((s'.mem 7).nice, (s'.mem 7).recent_cpu))
      = some (1, 300) ∧
    (init_thread mlfqsState.initial_thread 9 31 mlfqsState).map
      (fun s' => ((s'.mem s'.initial_thread).nice, (s'.mem s'.initial_thread).recent_cpu))
      = some (0, 0) := by
  refine ⟨by decide, by decide, by decide, by decide, by decide, by decide⟩

/-! ## The sleep list -/

theorem thread_unblock_iff (s s' : State) (t : Ptr) :
    thread_unblock t s = some s' ↔
      is_thread s t = true ∧ (s.mem t).status = THREAD_BLOCKED ∧ s' = unblocked s t := by
  unfold thread_unblock
  by_cases h1 : is_thread s t = true
  · by_cases h2 : (s.mem t).status = THREAD_BLOCKED
    · simp only [h1, h2]
      have heq : ({ ({ ({ s with intr := INTR_OFF } : State) with
            ready_list := list_insert_ordered (compare_thread_priority s.mem) t s.ready_list }
          : State).store t { s.mem t with status := THREAD_READY } with intr := s.intr } : State)
          = unblocked s t := rfl
      constructor
      · intro h
        refine ⟨trivial, trivial, ?_⟩
        have h' : some _ = some s' := h
        rw [← heq]
        simpa using h'.symm
      · rintro ⟨-, -, h⟩
        subst h
        simp
        exact heq
    · simp [h1, h2]
  · simp [h1]

theorem unblocked_waketime (s : State) (t p : Ptr) :
    ((unblocked s t).mem p).waketime = (s.mem p).waketime := by
  show (set_status s.mem t THREAD_READY p).waketime = _
  unfold set_status
  by_cases h : p = t
  · subst h; simp
  · simp [h]

theorem next_wakeup_compare_cache (ticks : Int) (s : State) :
    (next_wakeup_compare ticks s).next_tick_to_awake ≤ s.next_tick_to_awake ∧
      (next_wakeup_compare ticks s).next_tick_to_awake ≤ ticks ∧
      (next_wakeup_compare ticks s).mem = s.mem ∧
      (next_wakeup_compare ticks s).sleep_list = s.sleep_list ∧
      (next_wakeup_compare ticks s).ready_list = s.ready_list := by
  unfold next_wakeup_compare
  split_ifs with h
  · exact ⟨by show ticks ≤ _; omega, le_refl _, rfl, rfl, rfl⟩
  · exact ⟨le_refl _, by omega, rfl, rfl, rfl⟩

theorem goto_ready_loop_inv (now : Int) (l : List Ptr) :
    ∀ s s' : State, goto_ready_loop now l s = some s' →
      (∀ p, (s'.mem p).waketime = (s.mem p).waketime) ∧
      s'.sleep_list ⊆ s.sleep_list ∧
      s'.next_tick_to_awake ≤ s.next_tick_to_awake := by
  induction l with
  | nil =>
    intro s s' h
    simp only [goto_ready_loop] at h
    injection h with h
    subst h
    exact ⟨fun _ => rfl, fun _ hx => hx, le_refl _⟩
  | cons t rest ih =>
    intro s s' h
    simp only [goto_ready_loop] at h
    by_cases hd : now ≥ (s.mem t).waketime
    · simp only [hd, if_true] at h
      cases hu : thread_unblock t { s with sleep_list := s.sleep_list.erase t } with
      | none => simp [hu] at h
      | some s1 =>
        simp only [hu] at h
        obtain ⟨-, -, hs1⟩ := (thread_unblock_iff _ _ _).mp hu
        obtain ⟨h1, h2, h3⟩ := ih s1 s' h
        subst hs1
        refine ⟨fun p => ?_, fun x hx => ?_, h3⟩
        · rw [h1 p]
          exact unblocked_waketime _ t p
        · exact List.erase_subset _ _ (h2 hx)
    · simp only [hd, if_false] at h
      obtain ⟨h1, h2, h3⟩ := ih _ s' h
      obtain ⟨c1, -, c3, c4, -⟩ := next_wakeup_compare_cache (s.mem t).waketime s
      refine ⟨fun p => ?_, fun x hx => ?_, le_trans h3 c1⟩
      · rw [h1 p, c3]
      · rw [← c4]; exact h2 hx

theorem store_status_waketime (s : State) (t : Ptr) (st : thread_status) (p : Ptr) :
    ((s.store t { s.mem t with status := st }).mem p).waketime = (s.mem p).waketime := by
  by_cases h : p = t
  · subst h; simp [State.store]
  · simp [State.store, h]

theorem thread_schedule_tail_inv (prev : Ptr) (s s' : State)
    (h : thread_schedule_tail prev s = some s') :
    s'.sleep_list = s.sleep_list ∧ (∀ p, (s'.mem p).waketime = (s.mem p).waketime) ∧
      s'.next_tick_to_awake = s.next_tick_to_awake := by
  simp only [thread_schedule_tail, running_thread] at h
  split_ifs at h <;>
    (injection h with h; subst h
     exact ⟨rfl, fun p => store_status_waketime s _ _ p, rfl⟩)

theorem schedule_inv (s s' : State) (h : schedule s = some s') :
    s'.sleep_list = s.sleep_list ∧ (∀ p, (s'.mem p).waketime = (s.mem p).waketime) ∧
      s'.next_tick_to_awake = s.next_tick_to_awake := by
  unfold schedule at h
  cases hq : s.ready_list with
  | nil =>
    simp only [next_thread_to_run, hq] at h
    split_ifs at h <;> (have h' := thread_schedule_tail_inv _ _ _ h; exact h')
  | cons f rest =>
    simp only [next_thread_to_run, hq] at h
    split_ifs at h <;> (have h' := thread_schedule_tail_inv _ _ _ h; exact h')

theorem thread_block_inv (s s' : State) (h : thread_block s = some s') :
    s'.sleep_list = s.sleep_list ∧ (∀ p, (s'.mem p).waketime = (s.mem p).waketime) ∧
      s'.next_tick_to_awake = s.next_tick_to_awake := by
  unfold thread_block at h
  split_ifs at h
  cases hc : thread_current s with
  | none => simp [hc] at h
  | some cur =>
    simp only [hc] at h
    obtain ⟨h1, h2, h3⟩ := schedule_inv _ _ h
    refine ⟨h1, fun p => ?_, h3⟩
    rw [h2 p]
    exact store_status_waketime s cur _ p

theorem thread_goto_ready_cache_ok (now : Int) (s s' : State)
    (h : thread_goto_ready now s = some s') (hc : cache_ok s) : cache_ok s' := by
  obtain ⟨h1, h2, h3⟩ := goto_ready_loop_inv now s.sleep_list s s' h
  intro t ht
  rw [h1 t]
  exact le_trans h3 (hc t (h2 ht))

/-- C14, evaluated: in the sample state the cache `next_tick_to_awake` has its initial
value 0 and nobody sleeps. Thread 2 calls `thread_goto_sleep (-5)`: it is put on the
sleep list with the wake tick -5 and blocked, thread 3 runs, and `get_next_tick ()`
is still 0, above the wake tick of the sleeper; the cache is lowered to -5 only by
the end of the call, which thread 2 runs after it has been woken. The same after
completed calls: thread 2 sleeps until -3 and is woken by the sweep at -3, thread 3
goes to sleep until -7, thread 4 yields to thread 2, and thread 2 finishes its
`thread_goto_sleep (-3)`: the cache is -3, above the wake tick -7 of the sleeping
thread 3. -/
theorem next_tick_to_awake_overstates :
    (get_next_tick sampleState, sampleState.sleep_list) = (0, []) ∧
    (thread_goto_sleep (-5) sampleState).map
      (fun s' => (s'.running, s'.sleep_list, (s'.mem 2).waketime, (s'.mem 2).status,
        get_next_tick s'))
      = some (3, [2], -5, THREAD_BLOCKED, 0) ∧
    (thread_goto_sleep (-5) sampleState).map
      (fun s' => get_next_tick (thread_goto_sleep_resume INTR_ON (-5) s')) = some (-5) ∧
    (((((thread_goto_sleep (-3) sampleState).bind (thread_goto_ready (-3))).bind
        (thread_goto_sleep (-7))).bind thread_yield).map
          (thread_goto_sleep_resume INTR_ON (-3))).map
      (fun s' => (s'.running, s'.sleep_list, (s'.mem 3).waketime, get_next_tick s'))
      = some (2, [3], -7, -3) := by
  refine ⟨by decide, by decide, by decide, by decide⟩

/-- C15, evaluated: thread 5 sleeps until tick 100 and the cache holds its initial
value 0. After the sweep `thread_goto_ready (50)` thread 5 is still sleeping and is
the only sleeper, so the minimum wake tick on the sleep list is 100, but
`get_next_tick ()` returns 0: `next_wakeup_compare` only lowers the cache and nothing
raises it. -/
theorem get_next_tick_after_sweep :
    (thread_goto_ready 50
        { sampleState.store 5 { sampleState.mem 5 with waketime := 100 } with
          sleep_list := [5], next_tick_to_awake := 0 }).map
      (fun s' => (s'.sleep_list, (s'.mem 5).waketime, get_next_tick s'))
      = some ([5], 100, 0) := by
  decide

theorem list_insert_ordered_perm {α : Type} (less : α → α → Bool) (x : α) (l : List α) :
    (list_insert_ordered less x l).Perm (x :: l) := by
  rw [list_insert_ordered_eq]
  have h := @List.perm_middle α x (l.takeWhile (fun e => !less x e))
    (l.dropWhile (fun e => !less x e))
  rw [List.takeWhile_append_dropWhile] at h
  exact h

theorem due_set_status (m : Ptr → thread) (t : Ptr) (st : thread_status) (now : Int) :
    due (set_status m t st) now = due m now := by
  funext p
  unfold due set_status
  by_cases h : p = t
  · subst h; simp
  · simp [h]

theorem woken_due (m : Ptr → thread) (now : Int) (t : Ptr) (rest : List Ptr)
    (hnot : t ∉ rest) (hd : due m now t = true) :
    woken (set_status m t THREAD_READY) now rest = woken m now (t :: rest) := by
  funext p
  unfold woken
  rw [due_set_status]
  by_cases hp : p = t
  · subst hp
    simp [hnot, hd, set_status]
  · simp [hp, set_status]

theorem woken_not_due (m : Ptr → thread) (now : Int) (t : Ptr) (rest : List Ptr)
    (hd : due m now t = false) :
    woken m now rest = woken m now (t :: rest) := by
  funext p
  unfold woken
  by_cases hp : p = t
  · subst hp
    by_cases hr : p ∈ rest <;> simp [hd, hr]
  · simp [hp]

theorem next_wakeup_compare_frame (ticks : Int) (s : State) :
    (next_wakeup_compare ticks s).mem = s.mem ∧
      (next_wakeup_compare ticks s).sleep_list = s.sleep_list ∧
      (next_wakeup_compare ticks s).ready_list = s.ready_list ∧
      (next_wakeup_compare ticks s).running = s.running := by
  unfold next_wakeup_compare
  split_ifs <;> exact ⟨rfl, rfl, rfl, rfl⟩

theorem goto_ready_loop_spec (now : Int) (l : List Ptr) :
    ∀ s : State, l.Nodup → s.sleep_list.Nodup →
      (∀ t ∈ l, is_thread s t = true ∧ (s.mem t).status = THREAD_BLOCKED) →
      ∃ s' : State, goto_ready_loop now l s = some s' ∧
        s'.sleep_list
          = s.sleep_list.filter (fun x => !(decide (x ∈ l) && due s.mem now x)) ∧
        s'.ready_list.Perm (l.filter (due s.mem now) ++ s.ready_list) ∧
        s'.mem = woken s.mem now l ∧
        s'.running = s.running := by
  induction l with
  | nil =>
    intro s _ _ _
    refine ⟨s, rfl, ?_, ?_, ?_, rfl⟩
    · simp
    · simp
    · funext p; simp [woken]
  | cons t rest ih =>
    intro s hnd hsl hv
    obtain ⟨hnot, hnd'⟩ := List.nodup_cons.mp hnd
    obtain ⟨hthr, hblk⟩ := hv t (List.mem_cons_self _ _)
    by_cases hd : due s.mem now t = true
    · have hge : now ≥ (s.mem t).waketime := by simpa [due] using hd
      have hu : thread_unblock t { s with sleep_list := s.sleep_list.erase t }
          = some (unblocked { s with sleep_list := s.sleep_list.erase t } t) :=
        (thread_unblock_iff _ _ _).mpr ⟨hthr, hblk, rfl⟩
      obtain ⟨s', h1, h2, h3, h4, h5⟩ :=
        ih (unblocked { s with sleep_list := s.sleep_list.erase t } t) hnd'
          (List.Nodup.erase t hsl)
          (by
            intro x hx
            have hxt : x ≠ t := fun h => hnot (h ▸ hx)
            obtain ⟨a, b⟩ := hv x (List.mem_cons_of_mem _ hx)
            refine ⟨?_, ?_⟩
            · rw [← a]
              exact is_thread_congr s _ x (set_status_magic _ _ _ _)
            · show (set_status s.mem t THREAD_READY x).status = _
              rw [set_status_other _ _ _ _ hxt]
              exact b)
      have h2' : s'.sleep_list = (s.sleep_list.erase t).filter
          (fun x => !(decide (x ∈ rest) && due (set_status s.mem t THREAD_READY) now x)) := h2
      have h3' : s'.ready_list.Perm
          (rest.filter (due (set_status s.mem t THREAD_READY) now)
            ++ list_insert_ordered (compare_thread_priority s.mem) t s.ready_list) := h3
      have h4' : s'.mem = woken (set_status s.mem t THREAD_READY) now rest := h4
      rw [due_set_status] at h2' h3'
      refine ⟨s', ?_, ?_, ?_, ?_, h5⟩
      · simp only [goto_ready_loop, hge, if_true, hu]
        exact h1
      · rw [h2', List.Nodup.erase_eq_filter hsl, List.filter_filter]
        apply List.filter_congr
        intro x _
        by_cases hxt : x = t
        · subst hxt; simp [hd]
        · simp [hxt]
      · have hf : (t :: rest).filter (due s.mem now) = t :: rest.filter (due s.mem now) := by
          simp [List.filter_cons, hd]
        rw [hf]
        refine h3'.trans ?_
        refine (List.Perm.append_left _ (list_insert_ordered_perm _ t s.ready_list)).trans ?_
        exact List.perm_middle
      · rw [h4', woken_due s.mem now t rest hnot hd]
    · have hd' : due s.mem now t = false := by simpa using hd
      have hlt : ¬ now ≥ (s.mem t).waketime := by simpa [due] using hd'
      obtain ⟨f1, f2, f3, f4⟩ := next_wakeup_compare_frame (s.mem t).waketime s
      obtain ⟨s', h1, h2, h3, h4, h5⟩ :=
        ih (next_wakeup_compare (s.mem t).waketime s) hnd' (by rw [f2]; exact hsl)
          (by
            intro x hx
            obtain ⟨a, b⟩ := hv x (List.mem_cons_of_mem _ hx)
            refine ⟨?_, ?_⟩
            · rw [← a]; exact is_thread_congr s _ x (by rw [f1])
            · rw [f1]; exact b)
      rw [f1, f2] at h2
      rw [f1, f3] at h3
      rw [f1] at h4
      refine ⟨s', ?_, ?_, ?_, ?_, h5.trans f4⟩
      · simp only [goto_ready_loop, hlt, if_false]
        exact h1
      · rw [h2]
        apply List.filter_congr
        intro x _
        by_cases hxt : x = t
        · subst hxt; simp [hd', hnot]
        · simp [hxt]
      · have hf : (t :: rest).filter (due s.mem now) = rest.filter (due s.mem now) := by
          simp [List.filter_cons, hd']
        rw [hf]
        exact h3
      · rw [h4, woken_not_due s.mem now t rest hd']

theorem woken_waketime (m : Ptr → thread) (now : Int) (l : List Ptr) (p : Ptr) :
    (woken m now l p).waketime = (m p).waketime := by
  unfold woken
  split_ifs <;> rfl

theorem woken_magic (m : Ptr → thread) (now : Int) (l : List Ptr) (p : Ptr) :
    (woken m now l p).magic = (m p).magic := by
  unfold woken
  split_ifs <;> rfl

theorem woken_of_not_due (m : Ptr → thread) (now : Int) (l : List Ptr) (p : Ptr)
    (h : ¬ (p ∈ l ∧ due m now p = true)) : woken m now l p = m p := by
  unfold woken
  simp only [h, if_false]

theorem thread_goto_ready_eq (now : Int) (s : State) (hok : sleepers_ok s) :
    ∃ s' : State, thread_goto_ready now s = some s' ∧
      s'.sleep_list = s.sleep_list.filter (fun x => !due s.mem now x) ∧
      s'.ready_list.Perm (s.sleep_list.filter (due s.mem now) ++ s.ready_list) ∧
      s'.mem = woken s.mem now s.sleep_list ∧
      sleepers_ok s' := by
  obtain ⟨hnd, hv⟩ := hok
  obtain ⟨s', h1, h2, h3, h4, -⟩ := goto_ready_loop_spec now s.sleep_list s hnd hnd hv
  have h2' : s'.sleep_list = s.sleep_list.filter (fun x => !due s.mem now x) := by
    rw [h2]
    apply List.filter_congr
    intro x hx
    simp [hx]
  refine ⟨s', h1, h2', h3, h4, ?_, ?_⟩
  · rw [h2']
    exact List.Nodup.filter _ hnd
  · intro t ht
    rw [h2'] at ht
    obtain ⟨hm, hnd'⟩ := List.mem_filter.mp ht
    have hnd'' : ¬ (t ∈ s.sleep_list ∧ due s.mem now t = true) := by
      intro h
      rw [h.2] at hnd'
      simp at hnd'
    obtain ⟨a, b⟩ := hv t hm
    refine ⟨?_, ?_⟩
    · rw [← a]
      apply is_thread_congr
      rw [h4, woken_magic]
    · rw [h4, woken_of_not_due _ _ _ _ hnd'']
      exact b

theorem sweeps_before (t : Ptr) (nows : List Int) :
    ∀ s : State, sleepers_ok s → t ∈ s.sleep_list → t ∉ s.ready_list →
      (∀ x ∈ nows, x < (s.mem t).waketime) →
      ∃ s1 : State, sweeps nows s = some s1 ∧ sleepers_ok s1 ∧ t ∈ s1.sleep_list ∧
        t ∉ s1.ready_list ∧ (s1.mem t).waketime = (s.mem t).waketime := by
  induction nows with
  | nil =>
    intro s hok hs hr _
    exact ⟨s, rfl, hok, hs, hr, rfl⟩
  | cons now rest ih =>
    intro s hok hs hr hlt
    obtain ⟨s', h1, h2, h3, h4, h5⟩ := thread_goto_ready_eq now s hok
    have hnow : now < (s.mem t).waketime := hlt now (List.mem_cons_self _ _)
    have hnd : due s.mem now t = false := by
      simp only [due, decide_eq_false_iff_not]; omega
    have hw : (s'.mem t).waketime = (s.mem t).waketime := by rw [h4, woken_waketime]
    have hs' : t ∈ s'.sleep_list := by
      rw [h2]
      exact List.mem_filter.mpr ⟨hs, by simp [hnd]⟩
    have hr' : t ∉ s'.ready_list := by
      intro hmem
      rcases List.mem_append.mp ((h3.mem_iff).mp hmem) with h | h
      · have := (List.mem_filter.mp h).2
        rw [hnd] at this
        simp at this
      · exact hr h
    obtain ⟨s1, g1, g2, g3, g4, g5⟩ := ih s' h5 hs' hr'
      (by intro x hx; rw [hw]; exact hlt x (List.mem_cons_of_mem _ hx))
    refine ⟨s1, ?_, g2, g3, g4, g5.trans hw⟩
    simp only [sweeps, h1]
    exact g1

theorem sweeps_after (t : Ptr) (nows : List Int) :
    ∀ s : State, sleepers_ok s → t ∉ s.sleep_list →
      ∃ s3 : State, sweeps nows s = some s3 ∧ sleepers_ok s3 ∧ t ∉ s3.sleep_list ∧
        s3.ready_list.count t = s.ready_list.count t := by
  induction nows with
  | nil =>
    intro s hok hs
    exact ⟨s, rfl, hok, hs, rfl⟩
  | cons now rest ih =>
    intro s hok hs
    obtain ⟨s', h1, h2, h3, -, h5⟩ := thread_goto_ready_eq now s hok
    have hs' : t ∉ s'.sleep_list := by
      rw [h2]
      intro h
      exact hs (List.mem_filter.mp h).1
    have hc : s'.ready_list.count t = s.ready_list.count t := by
      rw [h3.count_eq, List.count_append]
      have : List.count t (s.sleep_list.filter (due s.mem now)) = 0 :=
        List.count_eq_zero.mpr (fun h => hs (List.mem_filter.mp h).1)
      omega
    obtain ⟨s3, g1, g2, g3, g4⟩ := ih s' h5 hs'
    refine ⟨s3, ?_, g2, g3, g4.trans hc⟩
    simp only [sweeps, h1]
    exact g1

theorem due_count (s : State) (now : Int) (t : Ptr) (hnd : s.sleep_list.Nodup) :
    List.count t (s.sleep_list.filter (due s.mem now))
      = if t ∈ s.sleep_list ∧ due s.mem now t = true then 1 else 0 := by
  rw [List.count_eq_of_nodup (List.Nodup.filter _ hnd)]
  simp only [List.mem_filter]

/-- C13: for a sleep list without duplicates whose threads are BLOCKED threads,
`thread_goto_ready (now)` succeeds. It leaves on the sleep list exactly the threads
with a wake tick after `now`, in their order; the new ready queue is a permutation of
the due threads together with the old queue, so each due thread enters it exactly
once and is READY, and no other thread is touched. Consequently a sleeping thread `t`
with wake tick `W` that is not queued stays asleep and out of the ready queue through
any sweeps at ticks before `W`, leaves the sleep list and is in the queue exactly once
after the first sweep at a tick `≥ W`, and further sweeps do not queue it again. -/
theorem thread_goto_ready_sweep (now : Int) (s : State) (hok : sleepers_ok s) :
    ∃ s' : State, thread_goto_ready now s = some s' ∧
      s'.sleep_list = s.sleep_list.filter (fun t => decide ((s.mem t).waketime > now)) ∧
      s'.ready_list.Perm
        (s.sleep_list.filter (fun t => decide ((s.mem t).waketime ≤ now)) ++ s.ready_list) ∧
      (∀ t ∈ s.sleep_list, (s.mem t).waketime ≤ now →
        (s'.mem t).status = THREAD_READY ∧
        s'.ready_list.count t = s.ready_list.count t + 1) ∧
      (∀ t, ¬ (t ∈ s.sleep_list ∧ (s.mem t).waketime ≤ now) →
        s'.mem t = s.mem t ∧ s'.ready_list.count t = s.ready_list.count t) ∧
      (∀ t, (s'.mem t).waketime = (s.mem t).waketime) ∧
      (∀ t ∈ s.sleep_list, t ∉ s.ready_list →
        ∀ (before : List Int) (at_wake : Int) (after : List Int),
          (∀ x ∈ before, x < (s.mem t).waketime) → (s.mem t).waketime ≤ at_wake →
          ∃ s1 s2 s3 : State,
            sweeps before s = some s1 ∧ t ∈ s1.sleep_list ∧ t ∉ s1.ready_list ∧
            thread_goto_ready at_wake s1 = some s2 ∧ t ∉ s2.sleep_list ∧
            s2.ready_list.count t = 1 ∧
            sweeps after s2 = some s3 ∧ t ∉ s3.sleep_list ∧ s3.ready_list.count t = 1) := by
  obtain ⟨s', h1, h2, h3, h4, -⟩ := thread_goto_ready_eq now s hok
  have hpred1 : (fun x => !due s.mem now x) = (fun t => decide ((s.mem t).waketime > now)) := by
    funext x
    by_cases h : (s.mem x).waketime ≤ now
    · have h' : ¬ (s.mem x).waketime > now := by omega
      simp [due, h, h']
    · have h' : (s.mem x).waketime > now := by omega
      simp [due, h, h']
  have hpred2 : due s.mem now = (fun t => decide ((s.mem t).waketime ≤ now)) := rfl
  refine ⟨s', h1, by rw [h2, hpred1], by rw [← hpred2]; exact h3, ?_, ?_, ?_, ?_⟩
  · intro t ht hd
    have hdue : due s.mem now t = true := by simp [due, hd]
    refine ⟨?_, ?_⟩
    · rw [h4]
      simp [woken, ht, hdue]
    · rw [h3.count_eq, List.count_append, due_count s now t hok.1]
      simp [ht, hdue]
      omega
  · intro t hn
    have hn' : ¬ (t ∈ s.sleep_list ∧ due s.mem now t = true) := by
      intro h
      exact hn ⟨h.1, by simpa [due] using h.2⟩
    refine ⟨by rw [h4, woken_of_not_due _ _ _ _ hn'], ?_⟩
    rw [h3.count_eq, List.count_append, due_count s now t hok.1]
    simp [hn']
  · intro t
    rw [h4, woken_waketime]
  · intro t ht hr before at_wake after hbefore hat
    obtain ⟨s1, a1, a2, a3, a4, a5⟩ := sweeps_before t before s hok ht hr hbefore
    obtain ⟨s2, b1, b2, b3, -, b5⟩ := thread_goto_ready_eq at_wake s1 a2
    have hdue : due s1.mem at_wake t = true := by
      simp only [due, decide_eq_true_eq]; omega
    have hs2 : t ∉ s2.sleep_list := by
      rw [b2]
      intro h
      have := (List.mem_filter.mp h).2
      simp [hdue] at this
    have hc2 : s2.ready_list.count t = 1 := by
      rw [b3.count_eq, List.count_append, due_count s1 at_wake t a2.1,
        List.count_eq_zero.mpr a4]
      simp [a3, hdue]
    obtain ⟨s3, c1, -, c3, c4⟩ := sweeps_after t after s2 b5 hs2
    exact ⟨s1, s2, s3, a1, a3, a4, b1, hs2, hc2, c1, c3, c4.trans hc2⟩

/-- Witness of C13: threads 5 and 6 sleep until ticks 100 and 60. The sweep at tick
70 wakes thread 6 only; sweeps at ticks 50 and 99 leave thread 5 asleep, the sweep at
tick 100 queues it once, and the sweeps at ticks 101 and 102 do not queue it again. -/
theorem thread_goto_ready_sweep_witness :
    ∃ s' : State,
      thread_goto_ready 70
        { (sampleState.store 5 { sampleState.mem 5 with waketime := 100 }).store 6
            { sampleState.mem 6 with waketime := 60 } with sleep_list := [5, 6] } = some s' ∧
      s'.sleep_list = [5] ∧ s'.ready_list.count 6 = 1 ∧ s'.ready_list.count 5 = 0 ∧
      ∃ s1 s2 s3 : State,
        sweeps [50, 99]
          { (sampleState.store 5 { sampleState.mem 5 with waketime := 100 }).store 6
              { sampleState.mem 6 with waketime := 60 } with sleep_list := [5, 6] } = some s1 ∧
        5 ∈ s1.sleep_list ∧ 5 ∉ s1.ready_list ∧
        thread_goto_ready 100 s1 = some s2 ∧ 5 ∉ s2.sleep_list ∧ s2.ready_list.count 5 = 1 ∧
        sweeps [101, 102] s2 = some s3 ∧ 5 ∉ s3.sleep_list ∧ s3.ready_list.count 5 = 1 := by
  obtain ⟨s', h1, h2, -, h4, h5, -, h7⟩ :=
    thread_goto_ready_sweep 70
      { (sampleState.store 5 { sampleState.mem 5 with waketime := 100 }).store 6
          { sampleState.mem 6 with waketime := 60 } with sleep_list := [5, 6] }
      (by unfold sleepers_ok; decide)
  refine ⟨s', h1, ?_, ?_, ?_, ?_⟩
  · rw [h2]; decide
  · rw [(h4 6 (by decide) (by decide)).2]; decide
  · rw [(h5 5 (by decide)).2]; decide
  · exact h7 5 (by decide) (by decide) [50, 99] 100 [101, 102] (by decide) (by decide)

/-! ## Creating a thread -/

theorem mlfqs_priority_change_next_tid (t : Ptr) (s : State) :
    (mlfqs_priority_change t s).next_tid = s.next_tid := by
  by_cases h : t = s.idle_thread
  · simp [mlfqs_priority_change, h]
  · rw [mlfqs_priority_change_eq s t h]
    rfl

theorem init_thread_eq (t name : Ptr) (p : Int) (s : State) :
    init_thread t name p s =
      if t = 0 then none
      else if ¬ (PRI_MIN ≤ p ∧ p ≤ PRI_MAX) then none
      else if name = 0 then none
      else if s.thread_mlfqs then
        if t = s.initial_thread then
          some (mlfqs_priority_change t
            ((init_basic t p s).store t
              { (init_basic t p s).mem t with nice := 0, recent_cpu := 0 }))
        else
          match thread_get_nice (init_basic t p s) with
          | none => none
          | some nice =>
            match thread_get_recent_cpu
                ((init_basic t p s).store t { (init_basic t p s).mem t with nice := nice }) with
            | none => none
            | some recent_cpu =>
              some (mlfqs_priority_change t
                (((init_basic t p s).store t
                    { (init_basic t p s).mem t with nice := nice }).store t
                  { ((init_basic t p s).store t
                      { (init_basic t p s).mem t with nice := nice }).mem t with
                    recent_cpu := recent_cpu }))
      else some (init_basic t p s) := rfl

theorem init_thread_next_tid (t name : Ptr) (p : Int) (s s1 : State)
    (h : init_thread t name p s = some s1) : s1.next_tid = s.next_tid := by
  rw [init_thread_eq] at h
  split_ifs at h
  · injection h with h
    subst h
    rw [mlfqs_priority_change_next_tid]
    rfl
  · split at h
    · exact absurd h (by simp)
    · split at h
      · exact absurd h (by simp)
      · injection h with h
        subst h
        rw [mlfqs_priority_change_next_tid]
        rfl
  · injection h with h
    subst h
    rfl

theorem thread_create_eq (page name : Ptr) (p : Int) (f : Ptr) (s : State) :
    thread_create page name p f s =
      if f = 0 then none
      else if page = 0 then some (TID_ERROR, s)
      else
        match init_thread page name p s with
        | none => none
        | some s1 =>
          match thread_current (with_tid s1 page) with
          | none => none
          | some _ =>
            match thread_unblock page (with_tid s1 page) with
            | none => none
            | some s2 =>
              match priority_yield s2 with
              | none => none
              | some s3 => some (s1.next_tid, s3) := rfl

theorem thread_create_tid (page name : Ptr) (p : Int) (f : Ptr) (s s' : State) (tid : Int)
    (hp : page ≠ 0) (h : thread_create page name p f s = some (tid, s')) :
    tid = s.next_tid := by
  rw [thread_create_eq] at h
  split_ifs at h
  split at h
  · exact absurd h (by simp)
  · rename_i s1 hinit
    have hn := init_thread_next_tid _ _ _ _ _ hinit
    split at h
    · exact absurd h (by simp)
    · split at h
      · exact absurd h (by simp)
      · split at h
        · exact absurd h (by simp)
        · injection h with h
          injection h with h1 h2
          rw [← h1, hn]

/-- C16: when the page allocator has no page (`palloc_get_page` returns `NULL`),
`thread_create` returns `TID_ERROR` and the state is exactly the state before the
call, whatever the name (a null one included) and the priority. With thread
identifiers allocated from 1 upward (`next_tid ≥ 1`), a call that returns does so
with `TID_ERROR` only in that case: with a page it returns the identifier `next_tid`
it has allocated. -/
theorem thread_create_alloc_failure (name : Ptr) (priority : Int) (function : Ptr)
    (s : State) (hf : function ≠ 0) :
    thread_create 0 name priority function s = some (TID_ERROR, s) ∧
    (∀ (page : Ptr) (tid : Int) (s' : State), page ≠ 0 →
      thread_create page name priority function s = some (tid, s') → tid = s.next_tid) ∧
    (1 ≤ s.next_tid → ∀ (page : Ptr) (tid : Int) (s' : State),
      thread_create page name priority function s = some (tid, s') →
      (tid = TID_ERROR ↔ page = 0)) := by
  have h0 : thread_create 0 name priority function s = some (TID_ERROR, s) := by
    rw [thread_create_eq]
    simp [hf]
  refine ⟨h0,
    fun page tid s' hp h => thread_create_tid page name priority function s s' tid hp h,
    fun hn page tid s' h => ?_⟩
  by_cases hp : page = 0
  · subst hp
    rw [h0] at h
    injection h with h
    injection h with h1 h2
    exact ⟨fun _ => rfl, fun _ => h1.symm⟩
  · have := thread_create_tid page name priority function s s' tid hp h
    constructor
    · intro ht
      rw [this] at ht
      unfold TID_ERROR at ht
      omega
    · intro h'
      exact absurd h' hp

/-- Witness of C16: in the sample state `thread_create` without a page returns
`TID_ERROR` and the sample state; with the page 7 it returns the identifier 7. The
name is at the address 8, the function at 9. -/
theorem thread_create_alloc_failure_witness :
    thread_create 0 8 31 9 sampleState = some (TID_ERROR, sampleState) ∧
    (thread_create 7 8 31 9 sampleState).map (fun r => (r.1, decide (r.1 = TID_ERROR)))
      = some (7, false) := by
  refine ⟨(thread_create_alloc_failure 8 31 9 sampleState (by decide)).1, by decide⟩

theorem init_basic_mem_other (t : Ptr) (p : Int) (s : State) (q : Ptr) (h : q ≠ t) :
    (init_basic t p s).mem q = s.mem q := by
  simp [init_basic, State.store, h]

theorem thread_current_init_basic (t : Ptr) (p : Int) (s : State) (c : Ptr)
    (hc : thread_current s = some c) (hct : c ≠ t) :
    thread_current (init_basic t p s) = some c := by
  obtain ⟨hr, hthr, hst⟩ := (thread_current_eq_some s c).mp hc
  rw [thread_current_eq_some]
  refine ⟨hr, ?_, ?_⟩
  · rw [← hthr]
    exact is_thread_congr s _ c (by rw [init_basic_mem_other t p s c hct])
  · rw [init_basic_mem_other t p s c hct]
    exact hst

theorem thread_current_store_other (s : State) (t : Ptr) (v : thread) (c : Ptr)
    (hc : thread_current s = some c) (hct : c ≠ t) :
    thread_current (s.store t v) = some c := by
  obtain ⟨hr, hthr, hst⟩ := (thread_current_eq_some s c).mp hc
  rw [thread_current_eq_some]
  refine ⟨hr, ?_, ?_⟩
  · rw [← hthr]
    exact is_thread_congr s _ c (by simp [State.store, hct])
  · simp only [State.store, hct, if_false]
    exact hst

/-- Counterexample to C20: 100 is above `PRI_MAX`, yet in the sample state
`thread_set_priority (100)` does not halt and sets the priority of the running
thread 2 to 100; and `thread_create` with priority 100 and no page from the
allocator returns `TID_ERROR` instead of halting. -/
theorem priority_out_of_range_accepted :
    ¬ (PRI_MIN ≤ (100 : Int) ∧ (100 : Int) ≤ PRI_MAX) ∧
    (thread_set_priority 100 sampleState).map (fun s' => (s'.mem 2).priority) = some 100 ∧
    (thread_create 0 8 100 9 sampleState).map (fun r => r.1) = some TID_ERROR := by
  refine ⟨by decide, by decide, by decide⟩

/-- C20, as amended: `init_thread` halts on its assertion
`PRI_MIN <= priority && priority <= PRI_MAX`, before it stores anything, whenever the
priority is below `PRI_MIN` or above `PRI_MAX`, whatever the name, and so does
`thread_create` once the allocator has supplied a page. For a non-null `t` other than
the running thread and a non-null name, `init_thread` halts if and only if the
priority is out of that range; with a null name it halts for every priority. -/
theorem init_thread_priority_assert (t name : Ptr) (priority : Int) (s : State) :
    (¬ (PRI_MIN ≤ priority ∧ priority ≤ PRI_MAX) →
      init_thread t name priority s = none ∧
      ∀ page function : Ptr, page ≠ 0 →
        thread_create page name priority function s = none) ∧
    (∀ c : Ptr, t ≠ 0 → name ≠ 0 → thread_current s = some c → c ≠ t →
      (init_thread t name priority s = none ↔ priority < PRI_MIN ∨ PRI_MAX < priority)) ∧
    init_thread t 0 priority s = none := by
  have hout : ¬ (PRI_MIN ≤ priority ∧ priority ≤ PRI_MAX) →
      ∀ t' : Ptr, init_thread t' name priority s = none := by
    intro h t'
    rw [init_thread_eq]
    by_cases ht : t' = 0
    · simp [ht]
    · simp only [ht, if_false, h, not_false_eq_true, if_true]
  refine ⟨fun h => ⟨hout h t, fun page function hp => ?_⟩, fun c ht hname hc hct => ?_, ?_⟩
  · rw [thread_create_eq, hout h page]
    by_cases hf : function = 0
    · simp [hf]
    · simp [hf, hp]
  · constructor
    · intro hnone
      by_contra hin
      have hrange : PRI_MIN ≤ priority ∧ priority ≤ PRI_MAX := by
        constructor <;> omega
      rw [init_thread_eq] at hnone
      simp only [ht, hname, if_false, hrange, not_true_eq_false] at hnone
      have h1 := thread_current_init_basic t priority s c hc hct
      by_cases hm : s.thread_mlfqs = true
      · simp only [hm, if_true] at hnone
        by_cases hi : t = s.initial_thread
        · simp only [hi, if_true] at hnone
          exact absurd hnone (by simp)
        · simp only [hi, if_false] at hnone
          have hn : thread_get_nice (init_basic t priority s)
              = some ((init_basic t priority s).mem c).nice := by
            simp [thread_get_nice, h1]
          rw [hn] at hnone
          have h2 := thread_current_store_other (init_basic t priority s) t
            { (init_basic t priority s).mem t with
              nice := ((init_basic t priority s).mem c).nice } c h1 hct
          simp only [thread_get_recent_cpu, h2, Option.map_some'] at hnone
          exact absurd hnone (by simp)
      · simp only [hm, if_false] at hnone
        exact absurd hnone (by simp)
    · intro hor
      exact hout (by omega) t
  · rw [init_thread_eq]
    by_cases ht : t = 0
    · simp [ht]
    · by_cases hr : PRI_MIN ≤ priority ∧ priority ≤ PRI_MAX
      · simp [ht, hr]
      · simp only [ht, if_false, hr, not_false_eq_true, if_true]

/-- Witness of C20 as amended: in the sample state `init_thread` on the page 7 with
the name at 8 halts for the priorities 64 and -1 and not for 63 and 0, and
`thread_create` with the page 7 and priority 64 halts. -/
theorem init_thread_priority_assert_witness :
    init_thread 7 8 64 sampleState = none ∧ init_thread 7 8 (-1) sampleState = none ∧
    init_thread 7 8 63 sampleState ≠ none ∧ init_thread 7 8 0 sampleState ≠ none ∧
    thread_create 7 8 64 9 sampleState = none := by
  have h64 := init_thread_priority_assert 7 8 64 sampleState
  have hm1 := init_thread_priority_assert 7 8 (-1) sampleState
  have h63 := init_thread_priority_assert 7 8 63 sampleState
  have h0 := init_thread_priority_assert 7 8 0 sampleState
  refine ⟨(h64.1 (by decide)).1, (hm1.1 (by decide)).1, ?_, ?_,
    (h64.1 (by decide)).2 7 9 (by decide)⟩
  · intro h
    have := (h63.2.1 2 (by decide) (by decide) (by decide) (by decide)).mp h
    revert this
    decide
  · intro h
    have := (h0.2.1 2 (by decide) (by decide) (by decide) (by decide)).mp h
    revert this
    decide

/-! ## Donators -/

theorem store_donators_priority (s : State) (cur : Ptr) (l : List Ptr) (p : Ptr) :
    ((s.store cur { s.mem cur with donators := l }).mem p).priority = (s.mem p).priority ∧
    ((s.store cur { s.mem cur with donators := l }).mem p).origin_priority
      = (s.mem p).origin_priority ∧
    ((s.store cur { s.mem cur with donators := l }).mem p).donated_level
      = (s.mem p).donated_level := by
  by_cases h : p = cur
  · subst h; simp [State.store]
  · simp [State.store, h]

theorem insert_donators_eq (s : State) (cur t : Ptr) (hcur : thread_current s = some cur) :
    insert_donators t s
      = some (s.store cur
          { s.mem cur with
            donators := list_insert_ordered (compare_thread_priority s.mem) t
              (s.mem cur).donators }) := by
  simp only [insert_donators, hcur]

theorem pop_donators_eq (off : Nat) (s : State) (cur d : Ptr) (rest : List Ptr)
    (hcur : thread_current s = some cur) (hd : (s.mem cur).donators = d :: rest) :
    pop_donators off s
      = some (elem_addr off d, s.store cur { s.mem cur with donators := rest }) := by
  simp only [pop_donators, hcur, hd]

/-- Counterexample to C17: the running thread 2 (the holder) has priority 1,
`origin_priority` 1 and `donated_level` 0; thread 5 (the waiter) has priority 31.
After `insert_donators (5)` the donators of thread 2 are `[5]`, but its priority is
still 1, not `max (1, 31) = 31`, and its `donated_level` is still 0, not 1. -/
theorem insert_donators_keeps_priority :
    thread_current holderState = some 2 ∧
    ((holderState.mem 2).priority, (holderState.mem 2).origin_priority,
      (holderState.mem 2).donated_level, (holderState.mem 5).priority) = (1, 1, 0, 31) ∧
    (insert_donators 5 holderState).map
      (fun s' => ((s'.mem 2).donators, (s'.mem 2).priority, (s'.mem 2).donated_level))
      = some ([5], 1, 0) := by
  refine ⟨by decide, by decide, by decide⟩

/-- C17, as amended: `insert_donators (t)` only puts `t` into the donators list of the
running thread, at its priority-ordered position, and `pop_donators ()` only takes
the front off that list and returns the address of its list element (it halts on an
empty list); neither changes the `priority`, the `origin_priority` or the
`donated_level` of any thread. -/
theorem donators_only_list (s : State) (cur t : Ptr) (hcur : thread_current s = some cur) :
    (∃ s' : State, insert_donators t s = some s' ∧
      s' = s.store cur { s.mem cur with donators := (s'.mem cur).donators } ∧
      (s'.mem cur).donators
        = list_insert_ordered (compare_thread_priority s.mem) t (s.mem cur).donators ∧
      ∀ p, (s'.mem p).priority = (s.mem p).priority ∧
        (s'.mem p).origin_priority = (s.mem p).origin_priority ∧
        (s'.mem p).donated_level = (s.mem p).donated_level) ∧
    (∀ off d rest, (s.mem cur).donators = d :: rest →
      ∃ s' : State, pop_donators off s = some (elem_addr off d, s') ∧
        s' = s.store cur { s.mem cur with donators := rest } ∧
        ∀ p, (s'.mem p).priority = (s.mem p).priority ∧
          (s'.mem p).origin_priority = (s.mem p).origin_priority ∧
          (s'.mem p).donated_level = (s.mem p).donated_level) ∧
    ((s.mem cur).donators = [] → ∀ off, pop_donators off s = none) := by
  refine ⟨⟨_, insert_donators_eq s cur t hcur, ?_, ?_, ?_⟩, fun off d rest hd => ?_,
    fun he off => ?_⟩
  · rw [store_mem_same]
  · rw [store_mem_same]
  · intro p
    exact store_donators_priority s cur _ p
  · exact ⟨_, pop_donators_eq off s cur d rest hcur hd, rfl,
      fun p => store_donators_priority s cur _ p⟩
  · simp only [pop_donators, hcur, he]

/-- Witness of C17 as amended: in the state of the counterexample, `insert_donators
(5)` followed by `pop_donators ()` takes thread 5 off the list again, returns the
address of its list element (45 when the member `elem` is at offset 40) and leaves
the priority 1 and the `donated_level` 0 of thread 2. -/
theorem donators_only_list_witness :
    ∃ s' : State, insert_donators 5 holderState = some s' ∧
      (s'.mem 2).donators = [5] ∧ (s'.mem 2).priority = 1 ∧ (s'.mem 2).donated_level = 0 ∧
      (pop_donators 40 s').map
        (fun r => (r.1, (r.2.mem 2).donators, (r.2.mem 2).priority, (r.2.mem 2).donated_level))
        = some (45, [], 1, 0) := by
  obtain ⟨⟨s', h1, h2, h3, h4⟩, -, -⟩ := donators_only_list holderState 2 5 (by decide)
  have hd : (s'.mem 2).donators = [5] := by rw [h3]; decide
  refine ⟨s', h1, hd, ?_, ?_, ?_⟩
  · rw [(h4 2).1]; decide
  · rw [(h4 2).2.2]; decide
  · rw [h2, hd]; decide

theorem insert_donators_sorted (s : State) (cur t : Ptr)
    (hcur : thread_current s = some cur)
    (hs : sortedDesc s.mem (s.mem cur).donators) :
    (∃ s' : State, insert_donators t s = some s' ∧
      sortedDesc s'.mem (s'.mem cur).donators ∧
      (s'.mem cur).donators.Perm (t :: (s.mem cur).donators) ∧
      ∀ p, prio s'.mem p = prio s.mem p) ∧
    (∀ off d rest, (s.mem cur).donators = d :: rest →
      ∃ s' : State, pop_donators off s = some (elem_addr off d, s') ∧
        (s'.mem cur).donators = rest ∧
        (∀ x ∈ (s.mem cur).donators, prio s.mem d ≥ prio s.mem x) ∧
        sortedDesc s'.mem (s'.mem cur).donators) := by
  refine ⟨⟨_, insert_donators_eq s cur t hcur, ?_, ?_, ?_⟩, fun off d rest hd => ?_⟩
  · rw [store_mem_same]
    refine (sortedDesc_congr s.mem _ _ (fun p => (store_donators_priority s cur _ p).1)).mpr ?_
    show sortedDesc s.mem
      (list_insert_ordered (compare_thread_priority s.mem) t (s.mem cur).donators)
    rw [insert_ready_eq]
    exact sortedDesc_insert s.mem t _ hs
  · rw [store_mem_same]
    exact list_insert_ordered_perm _ t _
  · intro p
    exact (store_donators_priority s cur _ p).1
  · refine ⟨_, pop_donators_eq off s cur d rest hcur hd, by rw [store_mem_same], ?_, ?_⟩
    · intro x hx
      rw [hd] at hx hs
      rcases List.mem_cons.mp hx with h | h
      · rw [h]
      · exact (List.pairwise_cons.mp hs).1 x h
    · rw [store_mem_same]
      refine (sortedDesc_congr s.mem _ _ (fun p => (store_donators_priority s cur _ p).1)).mpr ?_
      rw [hd] at hs
      exact (List.pairwise_cons.mp hs).2

/-- C18, evaluated: the running thread 2 has the donators `[6, 5]`, sorted by
descending priority (50 and 31). `pop_donators ()` takes thread 6, the donator of
maximal priority, off the list and leaves `[5]`, but the pointer it returns is not
thread 6: it is the address of the member `elem` of thread 6, `6 + off` for every
offset `off` of that member, which is thread 6 only for the offset 0 (46, not 6,
at the offset 40). `next_thread_to_run` converts the result of the same
`list_pop_front` with `list_entry` and returns the thread itself: thread 3 from the
ready queue `[3, 4]` of the sample state. -/
theorem pop_donators_returns_elem :
    thread_current donatedState = some 2 ∧
    (donatedState.mem 2).donators = [6, 5] ∧
    (prio donatedState.mem 6, prio donatedState.mem 5) = (50, 31) ∧
    (∀ off : Nat, (pop_donators off donatedState).map
        (fun r => (r.1, (r.2.mem 2).donators)) = some (6 + off, [5])) ∧
    (∀ off : Nat, (6 + off = 6 ↔ off = 0)) ∧
    (pop_donators 40 donatedState).map (fun r => (r.1, decide (r.1 = 6)))
      = some (46, false) ∧
    (next_thread_to_run sampleState).1 = 3 := by
  refine ⟨by decide, by decide, by decide, fun off => ?_, fun off => by omega, by decide,
    by decide⟩
  rw [pop_donators_eq off donatedState 2 6 [5] (by decide) (by decide)]
  simp only [Option.map_some', elem_addr, store_mem_same]

/-! ## The batch priority recompute -/

theorem priorities_updated_nil (s : State) : priorities_updated s [] = s.mem := by
  funext p
  simp [priorities_updated]

theorem priorities_updated_idle (s : State) (t : Ptr) (rest : List Ptr)
    (ht : t = s.idle_thread) :
    priorities_updated s (t :: rest) = priorities_updated s rest := by
  funext p
  unfold priorities_updated
  by_cases hp : p = t
  · have : p = s.idle_thread := hp.trans ht
    simp [this]
  · simp [hp]

theorem priorities_updated_store (s : State) (t : Ptr) (rest : List Ptr)
    (ht : t ≠ s.idle_thread) :
    priorities_updated
        (s.store t { s.mem t with
          priority := stored_priority (s.mem t).recent_cpu (s.mem t).nice }) rest
      = priorities_updated s (t :: rest) := by
  funext p
  unfold priorities_updated
  by_cases hp : p = t
  · subst hp
    by_cases hr : p ∈ rest <;> simp [State.store, hr, ht]
  · simp [State.store, hp]

theorem priority_loop_eq (l : List Ptr) :
    ∀ s : State, priority_loop l s = { s with mem := priorities_updated s l } := by
  induction l with
  | nil =>
    intro s
    rw [priorities_updated_nil]
    rfl
  | cons t rest ih =>
    intro s
    by_cases ht : t = s.idle_thread
    · have hstep : mlfqs_priority_change t s = s := by simp [mlfqs_priority_change, ht]
      simp only [priority_loop, hstep]
      rw [ih s, priorities_updated_idle s t rest ht]
    · have hih := ih (s.store t { s.mem t with
          priority := stored_priority (s.mem t).recent_cpu (s.mem t).nice })
      rw [priorities_updated_store s t rest ht] at hih
      simp only [priority_loop, mlfqs_priority_change_eq s t ht]
      exact hih

theorem list_sort_perm {α : Type} (less : α → α → Bool) (l : List α) :
    (list_sort less l).Perm l := by
  induction l with
  | nil => exact List.Perm.refl _
  | cons e rest ih =>
    exact (list_insert_ordered_perm _ e _).trans (List.Perm.cons e ih)

theorem insert_back_sorted (m : Ptr → thread) (x : Ptr) (l : List Ptr)
    (hs : sortedDesc m l) :
    sortedDesc m (list_insert_ordered (fun a b => !compare_thread_priority m b a) x l) := by
  induction l with
  | nil => simp [list_insert_ordered, sortedDesc]
  | cons e rest ih =>
    have hs' : sortedDesc m rest := (List.pairwise_cons.mp hs).2
    have he : ∀ y ∈ rest, prio m e ≥ prio m y := (List.pairwise_cons.mp hs).1
    by_cases h : prio m e > prio m x
    · have hc : compare_thread_priority m e x = true := by
        simpa [compare_thread_priority, prio] using h
      simp only [list_insert_ordered, hc, Bool.not_true, Bool.false_eq_true, if_false]
      unfold sortedDesc
      rw [List.pairwise_cons]
      refine ⟨fun y hy => ?_, ih hs'⟩
      rcases List.mem_cons.mp (((list_insert_ordered_perm _ x rest).mem_iff).mp hy) with h1 | h1
      · rw [h1]; omega
      · exact he y h1
    · have hc : compare_thread_priority m e x = false := by
        simpa [compare_thread_priority, prio] using h
      simp only [list_insert_ordered, hc, Bool.not_false, if_true]
      unfold sortedDesc
      rw [List.pairwise_cons]
      refine ⟨fun y hy => ?_, hs⟩
      rcases List.mem_cons.mp hy with h1 | h1
      · rw [h1]; omega
      · have := he y h1
        omega

theorem list_sort_sorted (m : Ptr → thread) (l : List Ptr) :
    sortedDesc m (list_sort (compare_thread_priority m) l) := by
  induction l with
  | nil => simp [list_sort, sortedDesc]
  | cons e rest ih => exact insert_back_sorted m e _ ih

theorem mlfqs_all_priority_change_eq (s : State) :
    mlfqs_all_priority_change s
      = { s with
          mem := priorities_updated s s.all_list
          ready_list :=
            list_sort (compare_thread_priority (priorities_updated s s.all_list))
              s.ready_list } := by
  unfold mlfqs_all_priority_change
  rw [priority_loop_eq]
  cases hq : s.ready_list with
  | nil => simp [hq, list_sort]
  | cons f rest => simp [hq]

/-- Counterexample to C19: in the MLFQS sample state the recompute gives the running
thread 2 the priority 60 and the front thread 3 of the ready queue the priority 63.
After `mlfqs_all_priority_change ()` thread 2 is still the RUNNING thread, the ready
queue still holds `[3, 4]` and no yield on return is requested: no preemption check
has been made. The check `priority_yield ()`, made afterwards, dispatches thread
3. -/
theorem mlfqs_all_priority_change_no_check :
    ((mlfqs_all_priority_change mlfqsState).mem 2).priority = 60 ∧
    (mlfqs_all_priority_change mlfqsState).ready_list = [3, 4] ∧
    ((mlfqs_all_priority_change mlfqsState).mem 3).priority = 63 ∧
    (mlfqs_all_priority_change mlfqsState).running = 2 ∧
    ((mlfqs_all_priority_change mlfqsState).mem 2).status = THREAD_RUNNING ∧
    (mlfqs_all_priority_change mlfqsState).yield_on_return = false ∧
    (priority_yield (mlfqs_all_priority_change mlfqsState)).map (fun s' => s'.running)
      = some 3 := by
  refine ⟨by decide, by decide, by decide, by decide, by decide, by decide, by decide⟩

/-- C19, as amended: after `mlfqs_all_priority_change ()` every thread of `all_list`
other than the idle thread has the priority that `mlfqs_priority_change` stores for
its `recent_cpu` and nice value (the clamped MLFQS formula when nothing overflows an
`int`), every other thread is unchanged, and the ready queue holds the same threads
sorted by descending new priority. Nothing else changes: the running thread, its
status and the yield-on-return request are as before, so no preemption check is
made. -/
theorem mlfqs_all_priority_change_spec (s : State) :
    (∀ t ∈ s.all_list, t ≠ s.idle_thread →
      (mlfqs_all_priority_change s).mem t
        = { s.mem t with priority := stored_priority (s.mem t).recent_cpu (s.mem t).nice } ∧
      (isInt32 (s.mem t).recent_cpu → isInt32 (2 * (s.mem t).nice) →
        isInt32 (PRI_MAX - FP_TO_INT_ROUND (DIV_INT (s.mem t).recent_cpu 4)
          - 2 * (s.mem t).nice) →
        ((mlfqs_all_priority_change s).mem t).priority
          = mlfqs_priority (s.mem t).recent_cpu (s.mem t).nice)) ∧
    (∀ t, ¬ (t ∈ s.all_list ∧ t ≠ s.idle_thread) →
      (mlfqs_all_priority_change s).mem t = s.mem t) ∧
    (mlfqs_all_priority_change s).ready_list.Perm s.ready_list ∧
    sortedDesc (mlfqs_all_priority_change s).mem (mlfqs_all_priority_change s).ready_list ∧
    mlfqs_all_priority_change s
      = { s with
          mem := (mlfqs_all_priority_change s).mem
          ready_list := (mlfqs_all_priority_change s).ready_list } ∧
    (mlfqs_all_priority_change s).running = s.running ∧
    ((mlfqs_all_priority_change s).mem s.running).status = (s.mem s.running).status ∧
    (mlfqs_all_priority_change s).yield_on_return = s.yield_on_return ∧
    (mlfqs_all_priority_change s).thread_ticks = s.thread_ticks := by
  rw [mlfqs_all_priority_change_eq]
  refine ⟨fun t ht hti => ⟨?_, fun hr hn hp => ?_⟩, fun t hn => ?_, list_sort_perm _ _,
    list_sort_sorted _ _, rfl, rfl, ?_, rfl, rfl⟩
  · show priorities_updated s s.all_list t = _
    simp [priorities_updated, ht, hti]
  · show (priorities_updated s s.all_list t).priority = _
    simp only [priorities_updated, ht, hti, ne_eq, not_false_eq_true, and_self, if_true]
    exact stored_priority_eq _ _ hr hn hp
  · show priorities_updated s s.all_list t = _
    simp only [priorities_updated]
    rw [if_neg hn]
  · show (priorities_updated s s.all_list s.running).status = _
    unfold priorities_updated
    split_ifs <;> rfl

/-- Witness of C19 as amended: in the MLFQS sample state the recompute gives thread 2
(`recent_cpu = 3.0`, `nice = 1`) the priority 60 of the MLFQS formula, leaves the
idle thread 1 as it is and leaves thread 2 running. -/
theorem mlfqs_all_priority_change_spec_witness :
    ((mlfqs_all_priority_change mlfqsState).mem 2).priority = mlfqs_priority (3 * FRACTION) 1 ∧
    mlfqs_priority (3 * FRACTION) 1 = 60 ∧
    (mlfqs_all_priority_change mlfqsState).mem 1 = mlfqsState.mem 1 ∧
    (mlfqs_all_priority_change mlfqsState).running = 2 := by
  have h := mlfqs_all_priority_change_spec mlfqsState
  refine ⟨(h.1 2 (by decide) (by decide)).2 (by decide) (by decide) (by decide), by decide,
    h.2.1 1 (by decide), h.2.2.2.2.2.1⟩

/-! ## The idle thread -/

theorem thread_schedule_tail_lists (prev : Ptr) (s s' : State)
    (h : thread_schedule_tail prev s = some s') :
    s'.ready_list = s.ready_list ∧ s'.sleep_list = s.sleep_list ∧
      s'.idle_thread = s.idle_thread := by
  simp only [thread_schedule_tail, running_thread] at h
  split_ifs at h <;> (injection h with h; subst h; exact ⟨rfl, rfl, rfl⟩)

theorem schedule_lists (s s' : State) (h : schedule s = some s') :
    s'.ready_list ⊆ s.ready_list ∧ s'.sleep_list = s.sleep_list ∧
      s'.idle_thread = s.idle_thread := by
  unfold schedule at h
  cases hq : s.ready_list with
  | nil =>
    simp only [next_thread_to_run, hq] at h
    split_ifs at h <;>
      (have h' := thread_schedule_tail_lists _ _ _ h
       refine ⟨?_, h'.2.1, h'.2.2⟩
       intro x hx
       rw [h'.1] at hx
       first
       | exact hx
       | (rw [hq] at hx; exact hx))
  | cons f rest =>
    simp only [next_thread_to_run, hq] at h
    split_ifs at h <;>
      (have h' := thread_schedule_tail_lists _ _ _ h
       exact ⟨by rw [h'.1]; exact fun _ hx => List.mem_cons_of_mem _ hx, h'.2.1, h'.2.2⟩)

theorem thread_block_lists (s s' : State) (h : thread_block s = some s') :
    s'.ready_list ⊆ s.ready_list ∧ s'.sleep_list = s.sleep_list ∧
      s'.idle_thread = s.idle_thread := by
  unfold thread_block at h
  split_ifs at h
  cases hc : thread_current s with
  | none => simp [hc] at h
  | some cur =>
    simp only [hc] at h
    have h' := schedule_lists _ _ h
    exact h'

theorem yield_prepare_lists (s : State) (cur : Ptr) :
    (yield_prepare s cur).idle_thread = s.idle_thread ∧
      (yield_prepare s cur).sleep_list = s.sleep_list ∧
      (s.idle_thread ∉ s.ready_list → s.idle_thread ∉ (yield_prepare s cur).ready_list) := by
  unfold yield_prepare
  by_cases hi : cur = s.idle_thread
  · simp [hi, State.store]
  · have hb : (cur != s.idle_thread) = true := by simp [hi]
    refine ⟨?_, ?_, ?_⟩
    · simp only [hb, if_true]; rfl
    · simp only [hb, if_true]; rfl
    · intro hn hmem
      simp only [hb, if_true] at hmem
      have hmem' : s.idle_thread
          ∈ list_insert_ordered (compare_thread_priority s.mem) cur s.ready_list := hmem
      rcases List.mem_cons.mp (((list_insert_ordered_perm _ cur s.ready_list).mem_iff).mp hmem')
        with h | h
      · exact hi h.symm
      · exact hn h

theorem thread_yield_parked (s s' : State) (h : thread_yield s = some s')
    (hp : idle_parked s) : idle_parked s' ∧ s'.idle_thread = s.idle_thread := by
  rw [thread_yield_eq] at h
  cases hc : thread_current s with
  | none => simp [hc] at h
  | some cur =>
    simp only [hc] at h
    split_ifs at h
    cases hs : schedule (yield_prepare s cur) with
    | none => simp [hs] at h
    | some s2 =>
      simp only [hs, Option.map_some'] at h
      injection h with h
      subst h
      obtain ⟨a1, a2, a3⟩ := schedule_lists _ _ hs
      obtain ⟨b1, b2, b3⟩ := yield_prepare_lists s cur
      have hid : s2.idle_thread = s.idle_thread := a3.trans b1
      refine ⟨⟨?_, ?_⟩, hid⟩
      · show s2.idle_thread ∉ s2.ready_list
        rw [hid]
        exact fun hm => b3 hp.1 (a1 hm)
      · show s2.idle_thread ∉ s2.sleep_list
        rw [hid, a2, b2]
        exact hp.2

theorem thread_block_parked (s s' : State) (h : thread_block s = some s')
    (hp : idle_parked s) : idle_parked s' ∧ s'.idle_thread = s.idle_thread := by
  obtain ⟨a1, a2, a3⟩ := thread_block_lists s s' h
  refine ⟨⟨?_, ?_⟩, a3⟩
  · rw [a3]; exact fun hm => hp.1 (a1 hm)
  · rw [a3, a2]; exact hp.2

theorem schedule_parked (s s' : State) (h : schedule s = some s')
    (hp : idle_parked s) : idle_parked s' ∧ s'.idle_thread = s.idle_thread := by
  obtain ⟨a1, a2, a3⟩ := schedule_lists s s' h
  refine ⟨⟨?_, ?_⟩, a3⟩
  · rw [a3]; exact fun hm => hp.1 (a1 hm)
  · rw [a3, a2]; exact hp.2

theorem thread_tick_parked (s s' : State) (h : thread_tick s = some s')
    (hp : idle_parked s) : idle_parked s' ∧ s'.idle_thread = s.idle_thread := by
  cases hc : thread_current s with
  | none => simp [thread_tick, hc] at h
  | some t =>
    obtain ⟨hr, hthr, hst⟩ := (thread_current_eq_some s t).mp hc
    rw [← hr] at hthr hst
    rw [thread_tick_eq s hthr hst] at h
    injection h with h
    subst h
    exact ⟨hp, rfl⟩

theorem next_wakeup_compare_idle (ticks : Int) (s : State) :
    (next_wakeup_compare ticks s).idle_thread = s.idle_thread := by
  unfold next_wakeup_compare
  split_ifs <;> rfl

theorem thread_goto_sleep_parked (ticks : Int) (s s' : State)
    (h : thread_goto_sleep ticks s = some s') (hp : idle_parked s) :
    idle_parked s' ∧ s'.idle_thread = s.idle_thread := by
  unfold thread_goto_sleep at h
  have hcur : thread_current { s with intr := INTR_OFF } = thread_current s := rfl
  simp only [hcur] at h
  cases hc' : thread_current s with
  | none => simp [hc'] at h
  | some c =>
    simp only [hc'] at h
    by_cases hi : c = s.idle_thread
    · simp only [hi, if_true] at h
      injection h with h
      subst h
      exact ⟨hp, rfl⟩
    · simp only [hi, if_false] at h
      obtain ⟨b1, b2, b3⟩ := thread_block_lists _ _ h
      have b1' : s'.ready_list ⊆ s.ready_list := b1
      have b2' : s'.sleep_list = s.sleep_list ++ [c] := b2
      have b3' : s'.idle_thread = s.idle_thread := b3
      refine ⟨⟨?_, ?_⟩, b3'⟩
      · rw [b3']
        exact fun hm => hp.1 (b1' hm)
      · rw [b3', b2']
        intro hm
        rcases List.mem_append.mp hm with h1 | h1
        · exact hp.2 h1
        · exact hi (List.mem_singleton.mp h1).symm

theorem thread_goto_sleep_resume_parked (old_level : intr_level) (ticks : Int) (s : State)
    (hp : idle_parked s) :
    idle_parked (thread_goto_sleep_resume old_level ticks s) ∧
      (thread_goto_sleep_resume old_level ticks s).idle_thread = s.idle_thread := by
  obtain ⟨-, f2, f3, -⟩ := next_wakeup_compare_frame ticks { s with intr := old_level }
  have f5 := next_wakeup_compare_idle ticks { s with intr := old_level }
  have hid : (thread_goto_sleep_resume old_level ticks s).idle_thread = s.idle_thread := f5
  refine ⟨⟨?_, ?_⟩, hid⟩
  · rw [hid]
    show s.idle_thread ∉ (next_wakeup_compare ticks { s with intr := old_level }).ready_list
    rw [f3]
    exact hp.1
  · rw [hid]
    show s.idle_thread ∉ (next_wakeup_compare ticks { s with intr := old_level }).sleep_list
    rw [f2]
    exact hp.2

theorem goto_ready_loop_lists (now : Int) (l : List Ptr) :
    ∀ s s' : State, goto_ready_loop now l s = some s' →
      s'.idle_thread = s.idle_thread ∧
      (∀ x ∈ s'.ready_list, x ∈ s.ready_list ∨ x ∈ l) ∧
      s'.sleep_list ⊆ s.sleep_list := by
  induction l with
  | nil =>
    intro s s' h
    simp only [goto_ready_loop] at h
    injection h with h
    subst h
    exact ⟨rfl, fun x hx => Or.inl hx, fun _ hx => hx⟩
  | cons t rest ih =>
    intro s s' h
    simp only [goto_ready_loop] at h
    by_cases hd : now ≥ (s.mem t).waketime
    · simp only [hd, if_true] at h
      cases hu : thread_unblock t { s with sleep_list := s.sleep_list.erase t } with
      | none => simp [hu] at h
      | some s1 =>
        simp only [hu] at h
        obtain ⟨-, -, hs1⟩ := (thread_unblock_iff _ _ _).mp hu
        obtain ⟨h1, h2, h3⟩ := ih s1 s' h
        subst hs1
        refine ⟨h1, fun x hx => ?_, fun x hx => List.erase_subset _ _ (h3 hx)⟩
        rcases h2 x hx with h4 | h4
        · have h4' : x ∈ list_insert_ordered (compare_thread_priority s.mem) t s.ready_list :=
            h4
          rcases List.mem_cons.mp (((list_insert_ordered_perm _ t s.ready_list).mem_iff).mp h4')
            with h5 | h5
          · exact Or.inr (h5 ▸ List.mem_cons_self _ _)
          · exact Or.inl h5
        · exact Or.inr (List.mem_cons_of_mem _ h4)
    · simp only [hd, if_false] at h
      obtain ⟨h1, h2, h3⟩ := ih _ s' h
      obtain ⟨-, f2, f3, -⟩ := next_wakeup_compare_frame (s.mem t).waketime s
      refine ⟨h1.trans (next_wakeup_compare_idle _ s), fun x hx => ?_, fun x hx => ?_⟩
      · rcases h2 x hx with h4 | h4
        · rw [f3] at h4; exact Or.inl h4
        · exact Or.inr (List.mem_cons_of_mem _ h4)
      · rw [← f2]; exact h3 hx

theorem thread_goto_ready_parked (now : Int) (s s' : State)
    (h : thread_goto_ready now s = some s') (hp : idle_parked s) :
    idle_parked s' ∧ s'.idle_thread = s.idle_thread := by
  obtain ⟨a1, a2, a3⟩ := goto_ready_loop_lists now s.sleep_list s s' h
  refine ⟨⟨?_, ?_⟩, a1⟩
  · rw [a1]
    intro hm
    rcases a2 _ hm with h1 | h1
    · exact hp.1 h1
    · exact hp.2 h1
  · rw [a1]
    exact fun hm => hp.2 (a3 hm)

theorem run_sched_op_parked (op : sched_op) (s s' : State)
    (h : run_sched_op op s = some s') (hp : idle_parked s) :
    idle_parked s' ∧ s'.idle_thread = s.idle_thread := by
  cases op with
  | yield => exact thread_yield_parked s s' h hp
  | block => exact thread_block_parked s s' h hp
  | goto_sleep ticks => exact thread_goto_sleep_parked ticks s s' h hp
  | goto_sleep_resume old_level ticks =>
    simp only [run_sched_op] at h
    injection h with h
    subst h
    exact thread_goto_sleep_resume_parked old_level ticks s hp
  | goto_ready ticks => exact thread_goto_ready_parked ticks s s' h hp
  | tick => exact thread_tick_parked s s' h hp
  | dispatch => exact schedule_parked s s' h hp

/-- C21: once the idle thread is in neither the ready queue nor the sleep list, it
stays so: every completed sequence of calls of `thread_yield`, `thread_block`,
`thread_goto_sleep` (up to the switch, and its end after the wake-up),
`thread_goto_ready`, `thread_tick` and `schedule`, whichever thread runs at each call
(the idle thread included) and whatever the arguments, leaves `idle_thread` unchanged
and in neither list; in particular each single operation preserves the property. -/
theorem idle_never_queued (ops : List sched_op) (s s' : State)
    (hp : idle_parked s) (h : run_sched_ops ops s = some s') :
    idle_parked s' ∧ s'.idle_thread = s.idle_thread ∧
      (∀ op s1 s2, idle_parked s1 → run_sched_op op s1 = some s2 → idle_parked s2) := by
  refine ⟨?_, ?_, fun op s1 s2 h1 h2 => (run_sched_op_parked op s1 s2 h2 h1).1⟩
  · induction ops generalizing s with
    | nil =>
      simp only [run_sched_ops] at h
      injection h with h
      subst h
      exact hp
    | cons op rest ih =>
      simp only [run_sched_ops] at h
      split at h
      · exact absurd h (by simp)
      · rename_i s1 h1
        exact ih s1 (run_sched_op_parked op s s1 h1 hp).1 h
  · induction ops generalizing s with
    | nil =>
      simp only [run_sched_ops] at h
      injection h with h
      subst h
      rfl
    | cons op rest ih =>
      simp only [run_sched_ops] at h
      split at h
      · exact absurd h (by simp)
      · rename_i s1 h1
        have h2 := run_sched_op_parked op s s1 h1 hp
        exact (ih s1 h2.1 h).trans h2.2

/-- The run `idleRun` from `blockingState` completes; the idle thread (at 1) runs in
the course of it, and it ends with thread 3 running, the ready queue `[4]`, nobody
asleep and the idle thread in neither list. -/
theorem idle_never_queued_witness :
    (run_sched_ops (idleRun.take 4) blockingState).map State.running = some 1 ∧
    ∃ s', run_sched_ops idleRun blockingState = some s' ∧
      s'.running = 3 ∧ s'.ready_list = [4] ∧ s'.sleep_list = [] ∧
      idle_parked s' ∧ s'.idle_thread = 1 := by
  refine ⟨by decide, ?_⟩
  have hsome : (run_sched_ops idleRun blockingState).isSome = true := by decide
  obtain ⟨s', hs⟩ := Option.isSome_iff_exists.mp hsome
  have hpark : idle_parked blockingState := by
    unfold idle_parked
    decide
  have hr : (run_sched_ops idleRun blockingState).map State.running = some 3 := by decide
  have hq : (run_sched_ops idleRun blockingState).map State.ready_list = some [4] := by
    decide
  have hsl : (run_sched_ops idleRun blockingState).map State.sleep_list = some [] := by
    decide
  rw [hs] at hr hq hsl
  have h := idle_never_queued idleRun blockingState s' hpark hs
  exact ⟨s', hs, Option.some.inj hr, Option.some.inj hq, Option.some.inj hsl, h.1, h.2.1⟩

/-! ## The base priority -/

theorem store_status_priorities (s : State) (t : Ptr) (st : thread_status) (p : Ptr) :
    ((s.store t { s.mem t with status := st }).mem p).origin_priority
        = (s.mem p).origin_priority ∧
      ((s.store t { s.mem t with status := st }).mem p).priority = (s.mem p).priority := by
  by_cases h : p = t
  · subst h; simp [State.store]
  · simp [State.store, h]

theorem thread_schedule_tail_priorities (prev : Ptr) (s s' : State)
    (h : thread_schedule_tail prev s = some s') (p : Ptr) :
    (s'.mem p).origin_priority = (s.mem p).origin_priority ∧
      (s'.mem p).priority = (s.mem p).priority := by
  simp only [thread_schedule_tail, running_thread] at h
  split_ifs at h <;>
    (injection h with h; subst h
     exact store_status_priorities s _ _ p)

theorem schedule_priorities (s s' : State) (h : schedule s = some s') (p : Ptr) :
    (s'.mem p).origin_priority = (s.mem p).origin_priority ∧
      (s'.mem p).priority = (s.mem p).priority := by
  unfold schedule at h
  cases hq : s.ready_list with
  | nil =>
    simp only [next_thread_to_run, hq] at h
    split_ifs at h <;> (have h' := thread_schedule_tail_priorities _ _ _ h p; exact h')
  | cons f rest =>
    simp only [next_thread_to_run, hq] at h
    split_ifs at h <;> (have h' := thread_schedule_tail_priorities _ _ _ h p; exact h')

theorem yield_prepare_priorities (s : State) (cur p : Ptr) :
    ((yield_prepare s cur).mem p).origin_priority = (s.mem p).origin_priority ∧
      ((yield_prepare s cur).mem p).priority = (s.mem p).priority := by
  unfold yield_prepare
  by_cases hi : cur = s.idle_thread <;> by_cases h : p = cur
  · subst h; simp [State.store, hi]
  · have h' : ¬ p = s.idle_thread := fun hp => h (hp.trans hi.symm)
    simp [State.store, hi, h']
  · subst h; simp [State.store, hi]
  · simp [State.store, hi, h]

theorem thread_yield_priorities (s s' : State) (h : thread_yield s = some s') (p : Ptr) :
    (s'.mem p).origin_priority = (s.mem p).origin_priority ∧
      (s'.mem p).priority = (s.mem p).priority := by
  rw [thread_yield_eq] at h
  cases hc : thread_current s with
  | none => simp [hc] at h
  | some cur =>
    simp only [hc] at h
    split_ifs at h
    cases hs : schedule (yield_prepare s cur) with
    | none => simp [hs] at h
    | some s2 =>
      simp only [hs, Option.map_some'] at h
      injection h with h
      subst h
      obtain ⟨a1, a2⟩ := schedule_priorities _ _ hs p
      obtain ⟨b1, b2⟩ := yield_prepare_priorities s cur p
      exact ⟨a1.trans b1, a2.trans b2⟩

theorem priority_yield_priorities (s s' : State) (h : priority_yield s = some s') (p : Ptr) :
    (s'.mem p).origin_priority = (s.mem p).origin_priority ∧
      (s'.mem p).priority = (s.mem p).priority := by
  unfold priority_yield at h
  cases hc : thread_current s with
  | none => simp [hc] at h
  | some ct =>
    simp only [hc] at h
    cases hq : s.ready_list with
    | nil =>
      simp only [hq] at h
      injection h with h
      subst h
      exact ⟨rfl, rfl⟩
    | cons f rest =>
      simp only [hq] at h
      split_ifs at h
      · exact thread_yield_priorities s s' h p
      · injection h with h
        subst h
        exact ⟨rfl, rfl⟩

theorem thread_set_priority_frame (new_priority : Int) (s s' : State) (c : Ptr)
    (hc : thread_current s = some c)
    (h : thread_set_priority new_priority s = some s') :
    (∀ t, (s'.mem t).origin_priority = (s.mem t).origin_priority) ∧
    ((s.mem c).donated_level = 0 → (s.mem c).is_donating = false →
      (s'.mem c).priority = new_priority) := by
  unfold thread_set_priority at h
  simp only [hc] at h
  split_ifs at h with hd
  · injection h with h
    subst h
    refine ⟨fun t => ?_, fun h1 h2 => ?_⟩
    · by_cases ht : t = c
      · subst ht; simp [State.store]
      · simp [State.store, ht]
    · simp [h1, h2] at hd
  · have hst : ∀ t, ((s.store c { s.mem c with priority := new_priority }).mem t).origin_priority
        = (s.mem t).origin_priority := by
      intro t
      by_cases ht : t = c
      · subst ht; simp [State.store]
      · simp [State.store, ht]
    have hpr : ((s.store c { s.mem c with priority := new_priority }).mem c).priority
        = new_priority := by
      simp [State.store]
    cases hq : (s.store c { s.mem c with priority := new_priority }).ready_list with
    | nil =>
      simp only [hq] at h
      injection h with h
      subst h
      exact ⟨hst, fun _ _ => hpr⟩
    | cons f rest =>
      simp only [hq] at h
      have h' := priority_yield_priorities _ _ h
      exact ⟨fun t => ((h' t).1).trans (hst t), fun _ _ => ((h' c).2).trans hpr⟩

/-- C22: `thread_set_priority (new_priority)` never writes `origin_priority`: whenever
the call returns, in the deferred branch as in the immediate one (a yield to the front
of the ready queue included), every thread, the caller among them, has the
`origin_priority` it had before. In the immediate branch the caller's `priority` is
`new_priority` afterwards, so its `origin_priority` differs from its priority as soon
as `new_priority` is not its old `origin_priority`. -/
theorem thread_set_priority_keeps_origin (new_priority : Int) (s s' : State) (c : Ptr)
    (hc : thread_current s = some c)
    (h : thread_set_priority new_priority s = some s') :
    (s'.mem c).origin_priority = (s.mem c).origin_priority ∧
    (∀ t, (s'.mem t).origin_priority = (s.mem t).origin_priority) ∧
    ((s.mem c).donated_level = 0 → (s.mem c).is_donating = false →
      (s'.mem c).priority = new_priority ∧
      ((s.mem c).origin_priority ≠ new_priority →
        (s'.mem c).origin_priority ≠ (s'.mem c).priority)) := by
  obtain ⟨h1, h2⟩ := thread_set_priority_frame new_priority s s' c hc h
  refine ⟨h1 c, h1, fun hd hn => ⟨h2 hd hn, fun hne => ?_⟩⟩
  rw [h1 c, h2 hd hn]
  exact hne

/-- In the sample state thread 2 (priority and `origin_priority` 31, no donation)
calls `thread_set_priority (35)`, below the priority 40 of the front of the ready
queue: the call returns after a switch to thread 3, the priority of thread 2 is 35
and its `origin_priority` is still 31. -/
theorem thread_set_priority_keeps_origin_witness :
    ∃ s' : State, thread_set_priority 35 sampleState = some s' ∧
      s'.running = 3 ∧
      (s'.mem 2).priority = 35 ∧ (s'.mem 2).origin_priority = 31 ∧
      (s'.mem 2).origin_priority ≠ (s'.mem 2).priority := by
  have hsome : (thread_set_priority 35 sampleState).isSome = true := by decide
  obtain ⟨s', hs⟩ := Option.isSome_iff_exists.mp hsome
  have hr : (thread_set_priority 35 sampleState).map State.running = some 3 := by decide
  rw [hs] at hr
  obtain ⟨h1, -, h3⟩ := thread_set_priority_keeps_origin 35 sampleState s' 2 (by decide) hs
  obtain ⟨h4, h5⟩ := h3 (by decide) (by decide)
  exact ⟨s', hs, Option.some.inj hr, h4, h1.trans (by decide), h5 (by decide)⟩

/-! ## The sign of the load average -/

theorem next_load_avg_bounds (l c n : Int) (hl : 0 ≤ l) (hln : l ≤ n * FRACTION)
    (hc : 0 ≤ c) (hcn : c ≤ n) :
    0 ≤ next_load_avg l c ∧ next_load_avg l c ≤ n * FRACTION := by
  have h59 : DIV_INT (INT_TO_FP 59) 60 = 16110 := by decide
  have h1 : DIV_INT (INT_TO_FP 1) 60 = 273 := by decide
  unfold next_load_avg
  rw [h59, h1]
  unfold MULT_FP MULT_INT FRACTION at *
  rw [Int.tdiv_eq_ediv (by omega) (by decide)]
  omega

theorem ready_count_nonneg (s : State) (c : Ptr) : 0 ≤ ready_count s c := by
  unfold ready_count
  split_ifs <;> omega

theorem mlfqs_load_avg_change_eq (s : State) (c : Ptr) (hcur : thread_current s = some c)
    (hl : 0 ≤ s.load_avg) (hc : isInt32 (ready_count s c))
    (hv : isInt32 (next_load_avg s.load_avg (ready_count s c))) :
    mlfqs_load_avg_change s
        = some { s with load_avg := next_load_avg s.load_avg (ready_count s c) } ∧
      0 ≤ next_load_avg s.load_avg (ready_count s c) := by
  have h59 : DIV_INT (INT_TO_FP 59) 60 = 16110 := by decide
  have h1 : DIV_INT (INT_TO_FP 1) 60 = 273 := by decide
  have hterm : (if c != s.idle_thread then wrap32 (wrap32 (s.ready_list.length : Int) + 1)
      else wrap32 (s.ready_list.length : Int)) = ready_count s c := by
    unfold ready_count isInt32 at *
    by_cases hi : c = s.idle_thread
    · simp only [hi, bne_self_eq_false, Bool.false_eq_true, if_false, ne_eq,
        not_true_eq_false] at hc ⊢
      unfold wrap32; omega
    · have hb : (c != s.idle_thread) = true := by simp [hi]
      simp only [hb, if_true, ne_eq, hi, not_false_eq_true] at hc ⊢
      unfold wrap32; omega
  have hnn : 0 ≤ next_load_avg s.load_avg (ready_count s c) := by
    unfold next_load_avg
    have hc0 := ready_count_nonneg s c
    have := MULT_FP_nonneg (DIV_INT (INT_TO_FP 59) 60) s.load_avg (by rw [h59]; decide) hl
    have h2 : 0 ≤ MULT_INT (DIV_INT (INT_TO_FP 1) 60) (ready_count s c) := by
      rw [h1]; unfold MULT_INT; omega
    omega
  refine ⟨?_, hnn⟩
  simp only [mlfqs_load_avg_change, hcur, hterm]
  rw [show MULT_FP (DIV_INT (INT_TO_FP 59) 60) s.load_avg
      + MULT_INT (DIV_INT (INT_TO_FP 1) 60) (ready_count s c)
      = next_load_avg s.load_avg (ready_count s c) from rfl, wrap32_of_isInt32 _ hv]
  simp [hnn]

theorem mlfqs_load_avg_change_bounded (e : State) (l : Int)
    (hcur : (thread_current e).isSome = true) (hlen : e.ready_list.length < 131071)
    (hl : 0 ≤ l) (hm : l ≤ LOAD_AVG_MAX) :
    ∃ s', mlfqs_load_avg_change { e with load_avg := l } = some s' ∧
      0 ≤ s'.load_avg ∧ s'.load_avg ≤ LOAD_AVG_MAX := by
  obtain ⟨c, hc⟩ := Option.isSome_iff_exists.mp hcur
  have hc' : thread_current { e with load_avg := l } = some c := hc
  have hrc : ready_count { e with load_avg := l } c = ready_count e c := rfl
  have hc0 := ready_count_nonneg e c
  have hcn : ready_count e c ≤ 131071 := by
    unfold ready_count
    split_ifs <;> omega
  have hb := next_load_avg_bounds l (ready_count e c) 131071 hl hm hc0 hcn
  have hm' : (131071 : Int) * FRACTION ≤ 2147483647 := by decide
  have h := mlfqs_load_avg_change_eq { e with load_avg := l } c hc' hl
    (by rw [hrc]; unfold isInt32; omega)
    (by
      show isInt32 (next_load_avg l (ready_count e c))
      unfold isInt32
      omega)
  exact ⟨_, h.1, hb.1, hb.2⟩

theorem load_avg_steps_bounded (envs : List State)
    (hcur : ∀ e ∈ envs, (thread_current e).isSome = true)
    (hlen : ∀ e ∈ envs, e.ready_list.length < 131071) :
    ∀ l : Int, 0 ≤ l → l ≤ LOAD_AVG_MAX →
      ∃ l', load_avg_steps envs l = some l' ∧ 0 ≤ l' ∧ l' ≤ LOAD_AVG_MAX := by
  induction envs with
  | nil => exact fun l hl hm => ⟨l, rfl, hl, hm⟩
  | cons e rest ih =>
    intro l hl hm
    obtain ⟨s', h1, h2, h3⟩ := mlfqs_load_avg_change_bounded e l
      (hcur e (List.mem_cons_self _ _)) (hlen e (List.mem_cons_self _ _)) hl hm
    obtain ⟨l', h4, h5⟩ := ih (fun x hx => hcur x (List.mem_cons_of_mem _ hx))
      (fun x hx => hlen x (List.mem_cons_of_mem _ hx)) s'.load_avg h2 h3
    refine ⟨l', ?_, h5⟩
    simp only [load_avg_steps, h1]
    exact h4

/-- C23: the assertion `load_avg >= 0` of `mlfqs_load_avg_change` does not fail. One
call, made by a running thread with `load_avg ≥ 0`, a ready count and an updated value
that fit an `int`, whatever the ready queue: the call returns and the new `load_avg`
is not negative. Calls in sequence from `load_avg = 0`, everything but `load_avg`
changing freely between them, each made by a running thread with fewer than 131071
threads ready: every call returns, and the final `load_avg` is between 0 and
`131071.0`, so nothing overflows on the way. -/
theorem load_avg_never_negative (envs : List State)
    (hcur : ∀ e ∈ envs, (thread_current e).isSome = true)
    (hlen : ∀ e ∈ envs, e.ready_list.length < 131071) :
    (∃ l, load_avg_steps envs 0 = some l ∧ 0 ≤ l ∧ l ≤ LOAD_AVG_MAX) ∧
    (∀ (s : State) (c : Ptr), thread_current s = some c → 0 ≤ s.load_avg →
      isInt32 (ready_count s c) → isInt32 (next_load_avg s.load_avg (ready_count s c)) →
      ∃ s', mlfqs_load_avg_change s = some s' ∧ 0 ≤ s'.load_avg ∧
        s'.load_avg = next_load_avg s.load_avg (ready_count s c)) := by
  refine ⟨load_avg_steps_bounded envs hcur hlen 0 (le_refl 0) (by decide), ?_⟩
  intro s c hc hl h1 h2
  obtain ⟨h3, h4⟩ := mlfqs_load_avg_change_eq s c hc hl h1 h2
  exact ⟨_, h3, h4, rfl⟩

/-- Three updates from `load_avg = 0`: two with thread 2 running and the ready queue
`[3, 4]`, one with the idle thread running and nobody ready. All three return; the
load average is 819, then 1624, then 1596 (in units of `2^-14`). -/
theorem load_avg_never_negative_witness :
    load_avg_steps [sampleState, sampleState, idleState] 0 = some 1596 ∧
    load_avg_steps [sampleState, sampleState] 0 = some 1624 ∧
    load_avg_steps [sampleState] 0 = some 819 ∧
    ∃ l, load_avg_steps [sampleState, sampleState, idleState] 0 = some l ∧
      0 ≤ l ∧ l ≤ LOAD_AVG_MAX := by
  refine ⟨by decide, by decide, by decide, ?_⟩
  exact (load_avg_never_negative [sampleState, sampleState, idleState]
    (by decide) (by decide)).1

end Pintos
